import Mathlib

/-
Verification development for a will-management system consisting of two
contracts: a registry (WillsNFT: ERC721 tokens representing will records)
and an execution engine (WillExecutor: fee computation and multi-asset
distribution).  Addresses and timestamps are modelled as Nat (0 is the null
address); ledger balances are Nat (uint256 overflow never occurs in the
scenarios proved, and Solidity 0.8 checked arithmetic reverts rather than
wraps).  Every externally callable operation is a function from the state
plus the caller identity and the current time to `Except String` of the new
state; an `Except.error` models a revert, and by the ledger's transaction
atomicity a reverted call leaves the state unchanged (made explicit by the
`Tx` wrappers below).  Events are not modelled except for the ordered trace
of native-currency transfers, which the ETH distribution pass records.
ERC721 approvals are not modelled: transfers are initiated by the current
holder, which is the only behaviour the theorems below depend on.
-/

/-- Addresses are natural numbers; 0 is the null address. -/
abbrev Addr := Nat

/-- Minimum emergency delay: 30 days in seconds. -/
def MIN_EMERGENCY_DELAY : Nat := 30 * 86400

/-- Maximum emergency delay: 365 days in seconds. -/
def MAX_EMERGENCY_DELAY : Nat := 365 * 86400

/-- Will record stored by the registry, mirroring struct WillData. -/
structure WillData where
  ipfsHash : String
  creator : Addr
  executor : Addr
  createdAt : Nat
  lastUpdateAt : Nat
  emergencyDelay : Nat
  isExecuted : Bool
  authorizedViewers : List Addr
deriving Repr, DecidableEq

/-- Zero-initialised will record (Solidity mapping default). -/
def defaultWill : WillData :=
  { ipfsHash := "", creator := 0, executor := 0, createdAt := 0,
    lastUpdateAt := 0, emergencyDelay := 0, isExecuted := false,
    authorizedViewers := [] }

/-- Registry contract state (contract WillsNFT). -/
structure WillsNFT where
  tokenIdCounter : Nat
  owners : Nat → Addr
  tokenURIs : Nat → String
  wills : Nat → WillData
  userWills : Addr → List Nat
  authorizedContracts : Addr → Bool
  contractOwner : Addr

/-- Fresh registry as deployed by `deployer`. -/
def initWillsNFT (deployer : Addr) : WillsNFT :=
  { tokenIdCounter := 0, owners := fun _ => 0, tokenURIs := fun _ => "",
    wills := fun _ => defaultWill, userWills := fun _ => [],
    authorizedContracts := fun _ => false, contractOwner := deployer }

/-- Token existence check (_ownerExists / exists). -/
def WillsNFT.willExists (s : WillsNFT) (tokenId : Nat) : Bool :=
  s.owners tokenId != 0

/-- createWill: validates inputs, mints the token, stores the record and
returns the allocated id together with the new state. -/
def WillsNFT.createWill (s : WillsNFT) (caller now : Nat) (ipfsHash : String)
    (executor : Addr) (emergencyDelay : Nat) : Except String (WillsNFT × Nat) :=
  if ipfsHash.length = 0 then .error "IPFS hash cannot be empty"
  else if executor = 0 then .error "Executor cannot be zero address"
  else if executor = caller then .error "Cannot set self as executor"
  else if ¬ (MIN_EMERGENCY_DELAY ≤ emergencyDelay ∧ emergencyDelay ≤ MAX_EMERGENCY_DELAY) then
    .error "Invalid emergency delay period"
  else
    let tokenId := s.tokenIdCounter
    -- _safeMint reverts on a mint to the null address or onto a live token
    if caller = 0 then .error "ERC721InvalidReceiver"
    else if s.owners tokenId ≠ 0 then .error "ERC721InvalidSender"
    else
      let willData : WillData :=
        { ipfsHash := ipfsHash, creator := caller, executor := executor,
          createdAt := now, lastUpdateAt := now,
          emergencyDelay := emergencyDelay, isExecuted := false,
          authorizedViewers := [] }
      .ok ({ s with
              tokenIdCounter := tokenId + 1,
              owners := fun k => if k = tokenId then caller else s.owners k,
              tokenURIs := fun k => if k = tokenId then ipfsHash else s.tokenURIs k,
              wills := fun k => if k = tokenId then willData else s.wills k,
              userWills := fun a => if a = caller then s.userWills a ++ [tokenId]
                                    else s.userWills a },
            tokenId)

/-- updateWill: owner-gated document-pointer update. -/
def WillsNFT.updateWill (s : WillsNFT) (caller now : Nat) (tokenId : Nat)
    (newIpfsHash : String) : Except String WillsNFT :=
  if ¬ s.willExists tokenId then .error "Will does not exist"
  else if s.owners tokenId ≠ caller then .error "Only owner can update will"
  else if (s.wills tokenId).isExecuted then .error "Cannot update executed will"
  else if newIpfsHash.length = 0 then .error "IPFS hash cannot be empty"
  else
    .ok { s with
          wills := fun k => if k = tokenId then
                              { s.wills k with ipfsHash := newIpfsHash, lastUpdateAt := now }
                            else s.wills k,
          tokenURIs := fun k => if k = tokenId then newIpfsHash else s.tokenURIs k }

/-- updateExecutor: owner-gated executor change. -/
def WillsNFT.updateExecutor (s : WillsNFT) (caller now : Nat) (tokenId : Nat)
    (newExecutor : Addr) : Except String WillsNFT :=
  if ¬ s.willExists tokenId then .error "Will does not exist"
  else if s.owners tokenId ≠ caller then .error "Only owner can update executor"
  else if (s.wills tokenId).isExecuted then .error "Cannot update executed will"
  else if newExecutor = 0 then .error "Executor cannot be zero address"
  else if newExecutor = caller then .error "Cannot set self as executor"
  else
    .ok { s with
          wills := fun k => if k = tokenId then
                              { s.wills k with executor := newExecutor, lastUpdateAt := now }
                            else s.wills k }

/-- updateEmergencyDelay: owner-gated delay change. -/
def WillsNFT.updateEmergencyDelay (s : WillsNFT) (caller now : Nat) (tokenId : Nat)
    (newEmergencyDelay : Nat) : Except String WillsNFT :=
  if ¬ s.willExists tokenId then .error "Will does not exist"
  else if s.owners tokenId ≠ caller then .error "Only owner can update emergency delay"
  else if (s.wills tokenId).isExecuted then .error "Cannot update executed will"
  else if ¬ (MIN_EMERGENCY_DELAY ≤ newEmergencyDelay ∧ newEmergencyDelay ≤ MAX_EMERGENCY_DELAY) then
    .error "Invalid emergency delay period"
  else
    .ok { s with
          wills := fun k => if k = tokenId then
                              { s.wills k with emergencyDelay := newEmergencyDelay,
                                               lastUpdateAt := now }
                            else s.wills k }

/-- executeWill on the registry: only the designated executor may call. -/
def WillsNFT.executeWill (s : WillsNFT) (caller : Nat) (tokenId : Nat) :
    Except String WillsNFT :=
  if ¬ s.willExists tokenId then .error "Will does not exist"
  else if (s.wills tokenId).executor ≠ caller then .error "Only executor can execute will"
  else if (s.wills tokenId).isExecuted then .error "Will already executed"
  else
    .ok { s with
          wills := fun k => if k = tokenId then { s.wills k with isExecuted := true }
                            else s.wills k }

/-- emergencyExecuteWill on the registry: any caller after the delay. -/
def WillsNFT.emergencyExecuteWill (s : WillsNFT) (_caller now : Nat) (tokenId : Nat) :
    Except String WillsNFT :=
  if ¬ s.willExists tokenId then .error "Will does not exist"
  else if (s.wills tokenId).isExecuted then .error "Will already executed"
  else if now < (s.wills tokenId).lastUpdateAt + (s.wills tokenId).emergencyDelay then
    .error "Emergency delay period not met"
  else
    .ok { s with
          wills := fun k => if k = tokenId then { s.wills k with isExecuted := true }
                            else s.wills k }

/-- authorizeViewer: owner grants read access, allowed also after execution. -/
def WillsNFT.authorizeViewer (s : WillsNFT) (caller : Nat) (tokenId : Nat)
    (viewer : Addr) : Except String WillsNFT :=
  if ¬ s.willExists tokenId then .error "Will does not exist"
  else if s.owners tokenId ≠ caller then .error "Only owner can authorize viewers"
  else if viewer = 0 then .error "Cannot authorize zero address"
  else
    .ok { s with
          wills := fun k => if k = tokenId then
                              { s.wills k with
                                authorizedViewers :=
                                  if viewer ∈ (s.wills k).authorizedViewers then
                                    (s.wills k).authorizedViewers
                                  else viewer :: (s.wills k).authorizedViewers }
                            else s.wills k }

/-- revokeViewer: owner revokes read access. -/
def WillsNFT.revokeViewer (s : WillsNFT) (caller : Nat) (tokenId : Nat)
    (viewer : Addr) : Except String WillsNFT :=
  if ¬ s.willExists tokenId then .error "Will does not exist"
  else if s.owners tokenId ≠ caller then .error "Only owner can revoke viewers"
  else
    .ok { s with
          wills := fun k => if k = tokenId then
                              { s.wills k with
                                authorizedViewers :=
                                  (s.wills k).authorizedViewers.filter (fun v => v ≠ viewer) }
                            else s.wills k }

/-- getWillData: read accessor gated to holder, executor or authorized viewer. -/
def WillsNFT.getWillData (s : WillsNFT) (caller : Nat) (tokenId : Nat) :
    Except String (String × Addr × Addr × Nat × Nat × Nat × Bool) :=
  if ¬ s.willExists tokenId then .error "Will does not exist"
  else if ¬ (s.owners tokenId = caller ∨ (s.wills tokenId).executor = caller ∨
             caller ∈ (s.wills tokenId).authorizedViewers) then
    .error "Not authorized to view this will"
  else
    let w := s.wills tokenId
    .ok (w.ipfsHash, w.creator, w.executor, w.createdAt, w.lastUpdateAt,
         w.emergencyDelay, w.isExecuted)

/-- getExecutor view. -/
def WillsNFT.getExecutor (s : WillsNFT) (tokenId : Nat) : Except String Addr :=
  if ¬ s.willExists tokenId then .error "Will does not exist"
  else .ok (s.wills tokenId).executor

/-- getIsExecuted view. -/
def WillsNFT.getIsExecuted (s : WillsNFT) (tokenId : Nat) : Except String Bool :=
  if ¬ s.willExists tokenId then .error "Will does not exist"
  else .ok (s.wills tokenId).isExecuted

/-- canEmergencyExecute: pure timing predicate, false for unknown or
executed records. -/
def WillsNFT.canEmergencyExecute (s : WillsNFT) (now : Nat) (tokenId : Nat) : Bool :=
  if ¬ s.willExists tokenId ∨ (s.wills tokenId).isExecuted then false
  else decide ((s.wills tokenId).lastUpdateAt + (s.wills tokenId).emergencyDelay ≤ now)

/-- authorizeContract: contract-owner-gated executor-contract allow-listing. -/
def WillsNFT.authorizeContract (s : WillsNFT) (caller : Nat) (contractAddress : Addr) :
    Except String WillsNFT :=
  if caller ≠ s.contractOwner then .error "OwnableUnauthorizedAccount"
  else if contractAddress = 0 then .error "Cannot authorize zero address"
  else
    .ok { s with authorizedContracts :=
            fun a => if a = contractAddress then true else s.authorizedContracts a }

/-- revokeContract: contract-owner-gated allow-list removal. -/
def WillsNFT.revokeContract (s : WillsNFT) (caller : Nat) (contractAddress : Addr) :
    Except String WillsNFT :=
  if caller ≠ s.contractOwner then .error "OwnableUnauthorizedAccount"
  else
    .ok { s with authorizedContracts :=
            fun a => if a = contractAddress then false else s.authorizedContracts a }

/-- executeWillByContract: execution sealed by an allow-listed contract on
behalf of the designated executor. -/
def WillsNFT.executeWillByContract (s : WillsNFT) (caller : Nat) (tokenId : Nat)
    (executor : Addr) : Except String WillsNFT :=
  if ¬ s.willExists tokenId then .error "Will does not exist"
  else if ¬ s.authorizedContracts caller then .error "Contract not authorized"
  else if (s.wills tokenId).executor ≠ executor then .error "Invalid executor"
  else if (s.wills tokenId).isExecuted then .error "Will already executed"
  else
    .ok { s with
          wills := fun k => if k = tokenId then { s.wills k with isExecuted := true }
                            else s.wills k }

/-- emergencyExecuteWillByContract: emergency seal by an allow-listed contract. -/
def WillsNFT.emergencyExecuteWillByContract (s : WillsNFT) (caller now : Nat)
    (tokenId : Nat) (_executor : Addr) : Except String WillsNFT :=
  if ¬ s.willExists tokenId then .error "Will does not exist"
  else if ¬ s.authorizedContracts caller then .error "Contract not authorized"
  else if (s.wills tokenId).isExecuted then .error "Will already executed"
  else if now < (s.wills tokenId).lastUpdateAt + (s.wills tokenId).emergencyDelay then
    .error "Emergency delay period not met"
  else
    .ok { s with
          wills := fun k => if k = tokenId then { s.wills k with isExecuted := true }
                            else s.wills k }

/-- transferFrom on the underlying ERC721 (approvals are not modelled: the
caller must be the current holder; _update installs the new holder). -/
def WillsNFT.transferFrom (s : WillsNFT) (caller : Nat) (fromAddr toAddr : Addr)
    (tokenId : Nat) : Except String WillsNFT :=
  if toAddr = 0 then .error "ERC721InvalidReceiver"
  else if s.owners tokenId = 0 then .error "ERC721NonexistentToken"
  else if s.owners tokenId ≠ caller then .error "ERC721InsufficientApproval"
  else if s.owners tokenId ≠ fromAddr then .error "ERC721IncorrectOwner"
  else
    .ok { s with owners := fun k => if k = tokenId then toAddr else s.owners k }

/-- Asset world outside the two contracts: native balances, fungible-token
balances and non-fungible ownership, plus the ordered trace of native
transfers performed (recipient, amount). -/
structure World where
  ethBal : Addr → Nat
  erc20Bal : Addr → Addr → Nat
  nftOwner : Addr → Nat → Addr
  trace : List (Addr × Nat)

/-- Native transfer primitive (address.transfer): reverts on insufficient
source balance, otherwise debits the source, credits the destination and
records the transfer in the trace. -/
def transferETH (w : World) (src dst : Addr) (amount : Nat) : Except String World :=
  if w.ethBal src < amount then .error "ETH transfer failed"
  else
    let b1 := fun a => if a = src then w.ethBal a - amount else w.ethBal a
    .ok { w with ethBal := fun a => if a = dst then b1 a + amount else b1 a,
                 trace := w.trace ++ [(dst, amount)] }

/-- Fungible transfer primitive (IERC20.transfer): `none` models a failed
transfer, which the engine converts into a revert via require. -/
def transferERC20 (w : World) (token src dst : Addr) (amount : Nat) : Option World :=
  if w.erc20Bal token src < amount then none
  else
    let b1 := fun a => if a = src then w.erc20Bal token a - amount else w.erc20Bal token a
    some { w with erc20Bal := fun t a =>
            if t = token then (if a = dst then b1 a + amount else b1 a)
            else w.erc20Bal t a }

/-- Native distribution entry (struct ETHDistribution). -/
structure ETHDistribution where
  beneficiary : Addr
  amount : Nat
deriving Repr, DecidableEq

/-- Fungible distribution entry (struct ERC20Distribution). -/
structure ERC20Distribution where
  beneficiary : Addr
  tokenContract : Addr
  amount : Nat
deriving Repr, DecidableEq

/-- Non-fungible distribution entry (struct ERC721Distribution). -/
structure ERC721Distribution where
  beneficiary : Addr
  tokenContract : Addr
  tokenId : Nat
deriving Repr, DecidableEq

/-- Per-call execution instruction (struct ExecutionInstruction). -/
structure ExecutionInstruction where
  ethDistributions : List ETHDistribution
  erc20Distributions : List ERC20Distribution
  erc721Distributions : List ERC721Distribution
  instructionHash : Nat
deriving Repr, DecidableEq

/-- Per-will execution status record (struct ExecutionStatus). -/
structure ExecutionStatus where
  isExecuted : Bool
  isInitiated : Bool
  executionTimestamp : Nat
  executor : Addr
  failureReason : String
deriving Repr, DecidableEq

/-- Zero-initialised execution status (Solidity mapping default). -/
def defaultStatus : ExecutionStatus :=
  { isExecuted := false, isInitiated := false, executionTimestamp := 0,
    executor := 0, failureReason := "" }

/-- Engine contract state (contract WillExecutor).  `self` is the engine's
own address. -/
structure WillExecutor where
  statuses : Nat → ExecutionStatus
  instructionHashes : Nat → Nat
  executionFeePercentage : Nat
  feeRecipient : Addr
  execOwner : Addr
  self : Addr

/-- Maximum fee rate in basis points (5%). -/
def MAX_FEE_PERCENTAGE : Nat := 500

/-- Fresh engine as deployed by `deployer` for a given registry. -/
def initWillExecutor (deployer selfAddr feeRecipient : Addr) : WillExecutor :=
  { statuses := fun _ => defaultStatus, instructionHashes := fun _ => 0,
    executionFeePercentage := 100, feeRecipient := feeRecipient,
    execOwner := deployer, self := selfAddr }

/-- Total requested amount of a native distribution list. -/
def ethTotal (dists : List ETHDistribution) : Nat :=
  (dists.map (fun d => d.amount)).sum

/-- Sum of the amounts addressed to `x` in a native distribution list. -/
def ethInflow (x : Addr) (dists : List ETHDistribution) : Nat :=
  ((dists.filter (fun d => d.beneficiary = x)).map (fun d => d.amount)).sum

/-- Payment loop of _distributeETH: per-entry validation and in-order
transfer to each beneficiary. -/
def ethLoop (self : Addr) (w : World) : List ETHDistribution → Except String World
  | [] => .ok w
  | d :: rest =>
    if d.beneficiary = 0 then .error "Invalid beneficiary address"
    else if d.amount = 0 then .error "Invalid distribution amount"
    else
      match transferETH w self d.beneficiary d.amount with
      | .error e => .error e
      | .ok w1 => ethLoop self w1 rest

/-- _distributeETH: pooled fee on the total, upfront balance check, per-entry
payments in instruction order, fee transferred last when positive.  A zero
total returns immediately without any per-entry validation. -/
def distributeETH (e : WillExecutor) (w : World) (dists : List ETHDistribution) :
    Except String World :=
  let totalDistribution := ethTotal dists
  if totalDistribution = 0 then .ok w
  else
    let fee := totalDistribution * e.executionFeePercentage / 10000
    let requiredBalance := totalDistribution + fee
    if w.ethBal e.self < requiredBalance then .error "Insufficient ETH balance"
    else
      match ethLoop e.self w dists with
      | .error err => .error err
      | .ok w1 =>
        if 0 < fee then transferETH w1 e.self e.feeRecipient fee
        else .ok w1

/-- _distributeERC20: per-entry validation, per-entry fee deduction, net to
the beneficiary then fee to the fee recipient. -/
def erc20Loop (e : WillExecutor) (w : World) : List ERC20Distribution → Except String World
  | [] => .ok w
  | d :: rest =>
    if d.beneficiary = 0 then .error "Invalid beneficiary address"
    else if d.tokenContract = 0 then .error "Invalid token contract"
    else if d.amount = 0 then .error "Invalid distribution amount"
    else if w.erc20Bal d.tokenContract e.self < d.amount then
      .error "Insufficient token balance"
    else
      let fee := d.amount * e.executionFeePercentage / 10000
      let netAmount := d.amount - fee
      match transferERC20 w d.tokenContract e.self d.beneficiary netAmount with
      | none => .error "Token transfer failed"
      | some w1 =>
        if 0 < fee then
          match transferERC20 w1 d.tokenContract e.self e.feeRecipient fee with
          | none => .error "Fee transfer failed"
          | some w2 => erc20Loop e w2 rest
        else erc20Loop e w1 rest

/-- Entry point of the fungible pass. -/
def distributeERC20 (e : WillExecutor) (w : World) (dists : List ERC20Distribution) :
    Except String World :=
  erc20Loop e w dists

/-- _distributeERC721: per-entry validation and ownership check, then plain
ownership transfer; no fee is charged. -/
def erc721Loop (self : Addr) (w : World) : List ERC721Distribution → Except String World
  | [] => .ok w
  | d :: rest =>
    if d.beneficiary = 0 then .error "Invalid beneficiary address"
    else if d.tokenContract = 0 then .error "Invalid token contract"
    else if w.nftOwner d.tokenContract d.tokenId ≠ self then
      .error "NFT not owned by executor"
    else
      erc721Loop self
        { w with nftOwner := fun t k =>
            if t = d.tokenContract ∧ k = d.tokenId then d.beneficiary
            else w.nftOwner t k } rest

/-- Entry point of the non-fungible pass. -/
def distributeERC721 (e : WillExecutor) (w : World) (dists : List ERC721Distribution) :
    Except String World :=
  erc721Loop e.self w dists

/-- _executeDistributions: the three passes in order — native, fungible,
non-fungible. -/
def executeDistributions (e : WillExecutor) (w : World)
    (instructions : ExecutionInstruction) : Except String World :=
  match distributeETH e w instructions.ethDistributions with
  | .error err => .error err
  | .ok w1 =>
    match distributeERC20 e w1 instructions.erc20Distributions with
    | .error err => .error err
    | .ok w2 => distributeERC721 e w2 instructions.erc721Distributions

/-- Combined state of the deployed system: registry, engine and the asset
world. -/
structure SysState where
  nft : WillsNFT
  engine : WillExecutor
  world : World

/-- Fresh system as deployed by `deployer`, with the engine living at
`selfAddr`, an initial asset world `w`, and the given fee recipient. -/
def initSys (deployer selfAddr feeRecipient : Addr) (w : World) : SysState :=
  { nft := initWillsNFT deployer,
    engine := initWillExecutor deployer selfAddr feeRecipient,
    world := w }

/-- executeWill on the engine.  The checks mirror the Solidity modifier and
require order; on a distribution failure the catch block re-reverts, so the
whole call fails (the transiently written failureReason does not survive the
revert — see the Tx wrapper). -/
def WillExecutor.executeWill (s : SysState) (caller now : Nat) (tokenId : Nat)
    (instructions : ExecutionInstruction) : Except String SysState :=
  if ¬ s.nft.willExists tokenId then .error "Invalid token ID"
  else if (s.nft.wills tokenId).executor ≠ caller then
    .error "Only designated executor can execute"
  else if (s.nft.wills tokenId).isExecuted then .error "Will already executed"
  else if (s.engine.statuses tokenId).isExecuted then .error "Will already executed"
  else if (s.engine.statuses tokenId).isInitiated then .error "Execution already initiated"
  else
    let engine1 := { s.engine with
      statuses := fun k => if k = tokenId then
                             { s.engine.statuses k with isInitiated := true, executor := caller }
                           else s.engine.statuses k }
    match executeDistributions engine1 s.world instructions with
    | .error reason => .error ("Execution failed: " ++ reason)
    | .ok w' =>
      match s.nft.executeWillByContract s.engine.self tokenId caller with
      | .error err => .error err
      | .ok nft' =>
        .ok { nft := nft',
              engine := { engine1 with
                statuses := fun k => if k = tokenId then
                              { engine1.statuses k with isExecuted := true,
                                                        executionTimestamp := now }
                            else engine1.statuses k },
              world := w' }

/-- emergencyExecuteWill on the engine: the executor check is replaced by
the registry's timing predicate and any caller is accepted. -/
def WillExecutor.emergencyExecuteWill (s : SysState) (caller now : Nat) (tokenId : Nat)
    (instructions : ExecutionInstruction) : Except String SysState :=
  if ¬ s.nft.willExists tokenId then .error "Invalid token ID"
  else if ¬ s.nft.canEmergencyExecute now tokenId then
    .error "Emergency execution not available"
  else if (s.engine.statuses tokenId).isExecuted then .error "Will already executed"
  else if (s.engine.statuses tokenId).isInitiated then .error "Execution already initiated"
  else
    let engine1 := { s.engine with
      statuses := fun k => if k = tokenId then
                             { s.engine.statuses k with isInitiated := true, executor := caller }
                           else s.engine.statuses k }
    match executeDistributions engine1 s.world instructions with
    | .error reason => .error ("Emergency execution failed: " ++ reason)
    | .ok w' =>
      match s.nft.emergencyExecuteWillByContract s.engine.self now tokenId caller with
      | .error err => .error err
      | .ok nft' =>
        .ok { nft := nft',
              engine := { engine1 with
                statuses := fun k => if k = tokenId then
                              { engine1.statuses k with isExecuted := true,
                                                        executionTimestamp := now }
                            else engine1.statuses k },
              world := w' }

/-- setExecutionFeePercentage: engine-owner-gated, capped at 5%. -/
def WillExecutor.setExecutionFeePercentage (s : SysState) (caller : Nat)
    (feePercentage : Nat) : Except String SysState :=
  if caller ≠ s.engine.execOwner then .error "OwnableUnauthorizedAccount"
  else if MAX_FEE_PERCENTAGE < feePercentage then .error "Fee percentage too high"
  else .ok { s with engine := { s.engine with executionFeePercentage := feePercentage } }

/-- setFeeRecipient: engine-owner-gated, rejects the null address. -/
def WillExecutor.setFeeRecipient (s : SysState) (caller : Nat)
    (feeRecipient : Addr) : Except String SysState :=
  if caller ≠ s.engine.execOwner then .error "OwnableUnauthorizedAccount"
  else if feeRecipient = 0 then .error "Fee recipient cannot be zero address"
  else .ok { s with engine := { s.engine with feeRecipient := feeRecipient } }

/-- getExecutionStatus view. -/
def WillExecutor.getExecutionStatus (s : SysState) (tokenId : Nat) : ExecutionStatus :=
  s.engine.statuses tokenId

/-- canExecuteWill: true iff the record exists, is unexecuted on the
registry side, and the local status marks it neither executed nor
initiated. -/
def WillExecutor.canExecuteWill (s : SysState) (tokenId : Nat) : Bool :=
  if ¬ s.nft.willExists tokenId then false
  else
    !(s.nft.wills tokenId).isExecuted &&
    !(s.engine.statuses tokenId).isExecuted &&
    !(s.engine.statuses tokenId).isInitiated

/-- Transaction-level semantics of executeWill: the ledger commits a
top-level call atomically, so a reverted call leaves the pre-call state. -/
def executeWillTx (s : SysState) (caller now : Nat) (tokenId : Nat)
    (instructions : ExecutionInstruction) : SysState × Option String :=
  match WillExecutor.executeWill s caller now tokenId instructions with
  | .ok s' => (s', none)
  | .error e => (s, some e)

/-- Transaction-level semantics of emergencyExecuteWill. -/
def emergencyExecuteWillTx (s : SysState) (caller now : Nat) (tokenId : Nat)
    (instructions : ExecutionInstruction) : SysState × Option String :=
  match WillExecutor.emergencyExecuteWill s caller now tokenId instructions with
  | .ok s' => (s', none)
  | .error e => (s, some e)

/-- Error-detection helper on Except. -/
def isError {α : Type} (x : Except String α) : Bool :=
  match x with
  | .error _ => true
  | .ok _ => false

/-- One successful top-level call on the deployed system.  Reverted calls
leave the state unchanged and hence need no step.  The `env` step lets the
environment move assets arbitrarily (deposits into the engine, the engine
owner's withdrawals and recoveries, third-party transfers): it may change
the asset world but neither contract's storage. -/
inductive Step : SysState → SysState → Prop where
  | create (s s' : SysState) (caller now : Nat) (hash : String) (ex : Addr)
      (delay id : Nat)
      (h : WillsNFT.createWill s.nft caller now hash ex delay = .ok (s'.nft, id))
      (he : s'.engine = s.engine) (hw : s'.world = s.world) : Step s s'
  | updDoc (s s' : SysState) (caller now tokenId : Nat) (hash : String)
      (h : WillsNFT.updateWill s.nft caller now tokenId hash = .ok s'.nft)
      (he : s'.engine = s.engine) (hw : s'.world = s.world) : Step s s'
  | updExec (s s' : SysState) (caller now tokenId : Nat) (ex : Addr)
      (h : WillsNFT.updateExecutor s.nft caller now tokenId ex = .ok s'.nft)
      (he : s'.engine = s.engine) (hw : s'.world = s.world) : Step s s'
  | updDelay (s s' : SysState) (caller now tokenId delay : Nat)
      (h : WillsNFT.updateEmergencyDelay s.nft caller now tokenId delay = .ok s'.nft)
      (he : s'.engine = s.engine) (hw : s'.world = s.world) : Step s s'
  | authView (s s' : SysState) (caller tokenId : Nat) (viewer : Addr)
      (h : WillsNFT.authorizeViewer s.nft caller tokenId viewer = .ok s'.nft)
      (he : s'.engine = s.engine) (hw : s'.world = s.world) : Step s s'
  | revView (s s' : SysState) (caller tokenId : Nat) (viewer : Addr)
      (h : WillsNFT.revokeViewer s.nft caller tokenId viewer = .ok s'.nft)
      (he : s'.engine = s.engine) (hw : s'.world = s.world) : Step s s'
  | regExec (s s' : SysState) (caller tokenId : Nat)
      (h : WillsNFT.executeWill s.nft caller tokenId = .ok s'.nft)
      (he : s'.engine = s.engine) (hw : s'.world = s.world) : Step s s'
  | regEmergency (s s' : SysState) (caller now tokenId : Nat)
      (h : WillsNFT.emergencyExecuteWill s.nft caller now tokenId = .ok s'.nft)
      (he : s'.engine = s.engine) (hw : s'.world = s.world) : Step s s'
  | execByC (s s' : SysState) (caller tokenId : Nat) (ex : Addr)
      (h : WillsNFT.executeWillByContract s.nft caller tokenId ex = .ok s'.nft)
      (he : s'.engine = s.engine) (hw : s'.world = s.world) : Step s s'
  | emergencyByC (s s' : SysState) (caller now tokenId : Nat) (ex : Addr)
      (h : WillsNFT.emergencyExecuteWillByContract s.nft caller now tokenId ex = .ok s'.nft)
      (he : s'.engine = s.engine) (hw : s'.world = s.world) : Step s s'
  | authC (s s' : SysState) (caller : Nat) (addr : Addr)
      (h : WillsNFT.authorizeContract s.nft caller addr = .ok s'.nft)
      (he : s'.engine = s.engine) (hw : s'.world = s.world) : Step s s'
  | revC (s s' : SysState) (caller : Nat) (addr : Addr)
      (h : WillsNFT.revokeContract s.nft caller addr = .ok s'.nft)
      (he : s'.engine = s.engine) (hw : s'.world = s.world) : Step s s'
  | transfer (s s' : SysState) (caller : Nat) (fromAddr toAddr : Addr) (tokenId : Nat)
      (h : WillsNFT.transferFrom s.nft caller fromAddr toAddr tokenId = .ok s'.nft)
      (he : s'.engine = s.engine) (hw : s'.world = s.world) : Step s s'
  | engExec (s s' : SysState) (caller now tokenId : Nat) (instr : ExecutionInstruction)
      (h : WillExecutor.executeWill s caller now tokenId instr = .ok s') : Step s s'
  | engEmergency (s s' : SysState) (caller now tokenId : Nat) (instr : ExecutionInstruction)
      (h : WillExecutor.emergencyExecuteWill s caller now tokenId instr = .ok s') : Step s s'
  | setFeePct (s s' : SysState) (caller pct : Nat)
      (h : WillExecutor.setExecutionFeePercentage s caller pct = .ok s') : Step s s'
  | setFeeRec (s s' : SysState) (caller : Nat) (addr : Addr)
      (h : WillExecutor.setFeeRecipient s caller addr = .ok s') : Step s s'
  | env (s s' : SysState) (hn : s'.nft = s.nft) (he : s'.engine = s.engine) : Step s s'

/-- Reachability of system states through successful calls. -/
def Reachable (s s' : SysState) : Prop := Relation.ReflTransGen Step s s'

/-- System invariant: the engine's executed flag implies the registry's, and
every id at or above the counter is untouched (no owner, default record). -/
def SysInv (s : SysState) : Prop :=
  (∀ id, (s.engine.statuses id).isExecuted = true → (s.nft.wills id).isExecuted = true) ∧
  (∀ k, s.nft.tokenIdCounter ≤ k → s.nft.owners k = 0 ∧ s.nft.wills k = defaultWill)

/-- Inversion facts for a successful updateWill: counter, owners and
contract allow-list untouched, the record exists, other records untouched,
and the executed flag is preserved. -/
theorem WillsNFT.updateWill_ok {s s' : WillsNFT} {c now id : Nat} {nh : String}
    (h : s.updateWill c now id nh = .ok s') :
    s'.tokenIdCounter = s.tokenIdCounter ∧ s'.owners = s.owners ∧
    s'.authorizedContracts = s.authorizedContracts ∧ s.owners id ≠ 0 ∧
    (∀ k, k ≠ id → s'.wills k = s.wills k) ∧
    (s'.wills id).isExecuted = (s.wills id).isExecuted := by
  unfold WillsNFT.updateWill at h
  repeat' split at h
  any_goals cases h
  refine ⟨rfl, rfl, rfl, ?_, ?_, ?_⟩
  · simp_all [WillsNFT.willExists]
  · intro k hk; simp [hk]
  · simp

/-- Inversion facts for a successful updateExecutor. -/
theorem WillsNFT.updateExecutor_ok {s s' : WillsNFT} {c now id : Nat} {ex : Addr}
    (h : s.updateExecutor c now id ex = .ok s') :
    s'.tokenIdCounter = s.tokenIdCounter ∧ s'.owners = s.owners ∧
    s'.authorizedContracts = s.authorizedContracts ∧ s.owners id ≠ 0 ∧
    (∀ k, k ≠ id → s'.wills k = s.wills k) ∧
    (s'.wills id).isExecuted = (s.wills id).isExecuted := by
  unfold WillsNFT.updateExecutor at h
  repeat' split at h
  any_goals cases h
  refine ⟨rfl, rfl, rfl, ?_, ?_, ?_⟩
  · simp_all [WillsNFT.willExists]
  · intro k hk; simp [hk]
  · simp

/-- Inversion facts for a successful updateEmergencyDelay. -/
theorem WillsNFT.updateEmergencyDelay_ok {s s' : WillsNFT} {c now id d : Nat}
    (h : s.updateEmergencyDelay c now id d = .ok s') :
    s'.tokenIdCounter = s.tokenIdCounter ∧ s'.owners = s.owners ∧
    s'.authorizedContracts = s.authorizedContracts ∧ s.owners id ≠ 0 ∧
    (∀ k, k ≠ id → s'.wills k = s.wills k) ∧
    (s'.wills id).isExecuted = (s.wills id).isExecuted := by
  unfold WillsNFT.updateEmergencyDelay at h
  repeat' split at h
  any_goals cases h
  refine ⟨rfl, rfl, rfl, ?_, ?_, ?_⟩
  · simp_all [WillsNFT.willExists]
  · intro k hk; simp [hk]
  · simp

/-- Inversion facts for a successful authorizeViewer. -/
theorem WillsNFT.authorizeViewer_ok {s s' : WillsNFT} {c id : Nat} {v : Addr}
    (h : s.authorizeViewer c id v = .ok s') :
    s'.tokenIdCounter = s.tokenIdCounter ∧ s'.owners = s.owners ∧
    s'.authorizedContracts = s.authorizedContracts ∧ s.owners id ≠ 0 ∧
    (∀ k, k ≠ id → s'.wills k = s.wills k) ∧
    (s'.wills id).isExecuted = (s.wills id).isExecuted := by
  unfold WillsNFT.authorizeViewer at h
  repeat' split at h
  any_goals cases h
  refine ⟨rfl, rfl, rfl, ?_, ?_, ?_⟩
  · simp_all [WillsNFT.willExists]
  · intro k hk; simp [hk]
  · simp

/-- Inversion facts for a successful revokeViewer. -/
theorem WillsNFT.revokeViewer_ok {s s' : WillsNFT} {c id : Nat} {v : Addr}
    (h : s.revokeViewer c id v = .ok s') :
    s'.tokenIdCounter = s.tokenIdCounter ∧ s'.owners = s.owners ∧
    s'.authorizedContracts = s.authorizedContracts ∧ s.owners id ≠ 0 ∧
    (∀ k, k ≠ id → s'.wills k = s.wills k) ∧
    (s'.wills id).isExecuted = (s.wills id).isExecuted := by
  unfold WillsNFT.revokeViewer at h
  repeat' split at h
  any_goals cases h
  refine ⟨rfl, rfl, rfl, ?_, ?_, ?_⟩
  · simp_all [WillsNFT.willExists]
  · intro k hk; simp [hk]
  · simp

/-- Inversion facts for a successful registry executeWill: the target record
is sealed, everything else is untouched. -/
theorem WillsNFT.executeWill_ok {s s' : WillsNFT} {c id : Nat}
    (h : s.executeWill c id = .ok s') :
    s'.tokenIdCounter = s.tokenIdCounter ∧ s'.owners = s.owners ∧
    s'.authorizedContracts = s.authorizedContracts ∧ s.owners id ≠ 0 ∧
    (∀ k, k ≠ id → s'.wills k = s.wills k) ∧
    (s'.wills id).isExecuted = true := by
  unfold WillsNFT.executeWill at h
  repeat' split at h
  any_goals cases h
  refine ⟨rfl, rfl, rfl, ?_, ?_, ?_⟩
  · simp_all [WillsNFT.willExists]
  · intro k hk; simp [hk]
  · simp

/-- Inversion facts for a successful registry emergencyExecuteWill. -/
theorem WillsNFT.emergencyExecuteWill_ok {s s' : WillsNFT} {c now id : Nat}
    (h : s.emergencyExecuteWill c now id = .ok s') :
    s'.tokenIdCounter = s.tokenIdCounter ∧ s'.owners = s.owners ∧
    s'.authorizedContracts = s.authorizedContracts ∧ s.owners id ≠ 0 ∧
    (∀ k, k ≠ id → s'.wills k = s.wills k) ∧
    (s'.wills id).isExecuted = true := by
  unfold WillsNFT.emergencyExecuteWill at h
  repeat' split at h
  any_goals cases h
  refine ⟨rfl, rfl, rfl, ?_, ?_, ?_⟩
  · simp_all [WillsNFT.willExists]
  · intro k hk; simp [hk]
  · simp

/-- Inversion facts for a successful executeWillByContract. -/
theorem WillsNFT.executeWillByContract_ok {s s' : WillsNFT} {c id : Nat} {ex : Addr}
    (h : s.executeWillByContract c id ex = .ok s') :
    s'.tokenIdCounter = s.tokenIdCounter ∧ s'.owners = s.owners ∧
    s'.authorizedContracts = s.authorizedContracts ∧ s.owners id ≠ 0 ∧
    (∀ k, k ≠ id → s'.wills k = s.wills k) ∧
    (s'.wills id).isExecuted = true := by
  unfold WillsNFT.executeWillByContract at h
  repeat' split at h
  any_goals cases h
  refine ⟨rfl, rfl, rfl, ?_, ?_, ?_⟩
  · simp_all [WillsNFT.willExists]
  · intro k hk; simp [hk]
  · simp

/-- Inversion facts for a successful emergencyExecuteWillByContract. -/
theorem WillsNFT.emergencyExecuteWillByContract_ok {s s' : WillsNFT} {c now id : Nat}
    {ex : Addr} (h : s.emergencyExecuteWillByContract c now id ex = .ok s') :
    s'.tokenIdCounter = s.tokenIdCounter ∧ s'.owners = s.owners ∧
    s'.authorizedContracts = s.authorizedContracts ∧ s.owners id ≠ 0 ∧
    (∀ k, k ≠ id → s'.wills k = s.wills k) ∧
    (s'.wills id).isExecuted = true := by
  unfold WillsNFT.emergencyExecuteWillByContract at h
  repeat' split at h
  any_goals cases h
  refine ⟨rfl, rfl, rfl, ?_, ?_, ?_⟩
  · simp_all [WillsNFT.willExists]
  · intro k hk; simp [hk]
  · simp

/-- Inversion facts for a successful authorizeContract: only the allow-list
changes. -/
theorem WillsNFT.authorizeContract_ok {s s' : WillsNFT} {c : Nat} {a : Addr}
    (h : s.authorizeContract c a = .ok s') :
    s'.tokenIdCounter = s.tokenIdCounter ∧ s'.owners = s.owners ∧
    s'.wills = s.wills := by
  unfold WillsNFT.authorizeContract at h
  repeat' split at h
  any_goals cases h
  exact ⟨rfl, rfl, rfl⟩

/-- Inversion facts for a successful revokeContract. -/
theorem WillsNFT.revokeContract_ok {s s' : WillsNFT} {c : Nat} {a : Addr}
    (h : s.revokeContract c a = .ok s') :
    s'.tokenIdCounter = s.tokenIdCounter ∧ s'.owners = s.owners ∧
    s'.wills = s.wills := by
  unfold WillsNFT.revokeContract at h
  repeat' split at h
  any_goals cases h
  exact ⟨rfl, rfl, rfl⟩

/-- Inversion facts for a successful transferFrom: only the holder of the
transferred token changes, and it was held by the caller. -/
theorem WillsNFT.transferFrom_ok {s s' : WillsNFT} {c : Nat} {fa ta : Addr} {id : Nat}
    (h : s.transferFrom c fa ta id = .ok s') :
    s'.tokenIdCounter = s.tokenIdCounter ∧ s'.wills = s.wills ∧
    s'.authorizedContracts = s.authorizedContracts ∧
    ta ≠ 0 ∧ s.owners id ≠ 0 ∧ s.owners id = c ∧ s.owners id = fa ∧
    s'.owners id = ta ∧ (∀ k, k ≠ id → s'.owners k = s.owners k) := by
  unfold WillsNFT.transferFrom at h
  repeat' split at h
  any_goals cases h
  refine ⟨rfl, rfl, rfl, ?_, ?_, ?_, ?_, ?_, ?_⟩
  · simp_all
  · simp_all
  · simp_all
  · simp_all
  · simp
  · intro k hk; simp [hk]


theorem WillsNFT.createWill_ok {s s' : WillsNFT} {c now : Nat} {hash : String}
    {ex : Addr} {delay id : Nat}
    (h : s.createWill c now hash ex delay = .ok (s', id)) :
    id = s.tokenIdCounter ∧ s'.tokenIdCounter = s.tokenIdCounter + 1 ∧
    hash.length ≠ 0 ∧ ex ≠ 0 ∧ ex ≠ c ∧
    MIN_EMERGENCY_DELAY ≤ delay ∧ delay ≤ MAX_EMERGENCY_DELAY ∧
    c ≠ 0 ∧ s.owners id = 0 ∧
    s'.owners id = c ∧ (∀ k, k ≠ id → s'.owners k = s.owners k) ∧
    s'.wills id = { ipfsHash := hash, creator := c, executor := ex,
                    createdAt := now, lastUpdateAt := now,
                    emergencyDelay := delay, isExecuted := false,
                    authorizedViewers := [] } ∧
    (∀ k, k ≠ id → s'.wills k = s.wills k) ∧
    s'.authorizedContracts = s.authorizedContracts := by
  unfold WillsNFT.createWill at h
  simp only [] at h
  repeat' split at h
  any_goals cases h
  rename_i h1 h2 h3 h4 h5 h6
  rw [not_not] at h4
  refine ⟨rfl, rfl, h1, h2, h3, h4.1, h4.2, h5, by simpa using h6, by simp, ?_,
          by simp, ?_, rfl⟩
  · intro k hk; simp [hk]
  · intro k hk; simp [hk]

theorem WillExecutor.engineExecRun_ok {s s' : SysState} {caller now tokenId : Nat}
    {instr : ExecutionInstruction}
    (h : WillExecutor.executeWill s caller now tokenId instr = .ok s') :
    s.nft.executeWillByContract s.engine.self tokenId caller = .ok s'.nft ∧
    (∀ k, k ≠ tokenId → s'.engine.statuses k = s.engine.statuses k) ∧
    (s'.engine.statuses tokenId).isExecuted = true ∧
    (s'.engine.statuses tokenId).isInitiated = true ∧
    (s'.engine.statuses tokenId).executor = caller := by
  unfold WillExecutor.executeWill at h
  simp only [] at h
  repeat' split at h
  any_goals cases h
  rename_i x1 w1 hdist x2 nft' hseal
  refine ⟨hseal, ?_, by simp, by simp, by simp⟩
  intro k hk; simp [hk]

theorem WillExecutor.engineEmergencyRun_ok {s s' : SysState}
    {caller now tokenId : Nat} {instr : ExecutionInstruction}
    (h : WillExecutor.emergencyExecuteWill s caller now tokenId instr = .ok s') :
    s.nft.emergencyExecuteWillByContract s.engine.self now tokenId caller = .ok s'.nft ∧
    (∀ k, k ≠ tokenId → s'.engine.statuses k = s.engine.statuses k) ∧
    (s'.engine.statuses tokenId).isExecuted = true ∧
    (s'.engine.statuses tokenId).isInitiated = true ∧
    (s'.engine.statuses tokenId).executor = caller := by
  unfold WillExecutor.emergencyExecuteWill at h
  simp only [] at h
  repeat' split at h
  any_goals cases h
  rename_i x1 w1 hdist x2 nft' hseal
  refine ⟨hseal, ?_, by simp, by simp, by simp⟩
  intro k hk; simp [hk]

theorem WillExecutor.setExecutionFeePercentage_ok {s s' : SysState} {caller pct : Nat}
    (h : WillExecutor.setExecutionFeePercentage s caller pct = .ok s') :
    s'.nft = s.nft ∧ s'.engine.statuses = s.engine.statuses ∧ s'.world = s.world := by
  unfold WillExecutor.setExecutionFeePercentage at h
  repeat' split at h
  any_goals cases h
  exact ⟨rfl, rfl, rfl⟩

theorem WillExecutor.setFeeRecipient_ok {s s' : SysState} {caller : Nat} {addr : Addr}
    (h : WillExecutor.setFeeRecipient s caller addr = .ok s') :
    s'.nft = s.nft ∧ s'.engine.statuses = s.engine.statuses ∧ s'.world = s.world := by
  unfold WillExecutor.setFeeRecipient at h
  repeat' split at h
  any_goals cases h
  exact ⟨rfl, rfl, rfl⟩

/-- SysInv is preserved by any registry mutation that keeps the engine,
keeps counter and owners, touches only one existing record, and never
clears its executed flag. -/
theorem sysInvRegMutation {s s' : SysState} {id : Nat}
    (he : s'.engine = s.engine)
    (hc : s'.nft.tokenIdCounter = s.nft.tokenIdCounter)
    (ho : s'.nft.owners = s.nft.owners)
    (hex : s.nft.owners id ≠ 0)
    (hk : ∀ k, k ≠ id → s'.nft.wills k = s.nft.wills k)
    (hm : (s'.nft.wills id).isExecuted = (s.nft.wills id).isExecuted ∨
          (s'.nft.wills id).isExecuted = true)
    (hinv : SysInv s) : SysInv s' := by
  obtain ⟨h1, h2⟩ := hinv
  constructor
  · intro j hj
    rw [he] at hj
    have hrec := h1 j hj
    by_cases hji : j = id
    · subst hji
      rcases hm with hm | hm
      · rw [hm]; exact hrec
      · exact hm
    · rw [hk j hji]; exact hrec
  · intro k hkc
    rw [hc] at hkc
    have hfr := h2 k hkc
    have hki : k ≠ id := fun hk0 => hex (hk0 ▸ hfr.1)
    rw [ho, hk k hki]
    exact hfr

/-- One successful call preserves the system invariant. -/
theorem stepPreservesSysInv {s s' : SysState} (hs : Step s s') (hinv : SysInv s) :
    SysInv s' := by
  cases hs with
  | create caller now hash ex delay id h he hw =>
    obtain ⟨hid, hc, _, _, _, _, _, _, hfree, _, hok, hwid, hwk, _⟩ :=
      WillsNFT.createWill_ok h
    obtain ⟨h1, h2⟩ := hinv
    constructor
    · intro j hj
      rw [he] at hj
      have hrec := h1 j hj
      by_cases hji : j = id
      · rw [hji] at hrec
        have hdef := (h2 id (le_of_eq hid.symm)).2
        rw [hdef] at hrec
        simp [defaultWill] at hrec
      · rw [hwk j hji]; exact hrec
    · intro k hkc
      rw [hc] at hkc
      have hkc' : s.nft.tokenIdCounter ≤ k := le_of_add_le_left hkc
      have hfr := h2 k hkc'
      have hki : k ≠ id := by omega
      rw [hok k hki, hwk k hki]
      exact hfr
  | updDoc caller now tokenId hash h he hw =>
    obtain ⟨hc, ho, _, hex, hk, hm⟩ := WillsNFT.updateWill_ok h
    exact sysInvRegMutation he hc ho hex hk (Or.inl hm) hinv
  | updExec caller now tokenId ex h he hw =>
    obtain ⟨hc, ho, _, hex, hk, hm⟩ := WillsNFT.updateExecutor_ok h
    exact sysInvRegMutation he hc ho hex hk (Or.inl hm) hinv
  | updDelay caller now tokenId delay h he hw =>
    obtain ⟨hc, ho, _, hex, hk, hm⟩ := WillsNFT.updateEmergencyDelay_ok h
    exact sysInvRegMutation he hc ho hex hk (Or.inl hm) hinv
  | authView caller tokenId viewer h he hw =>
    obtain ⟨hc, ho, _, hex, hk, hm⟩ := WillsNFT.authorizeViewer_ok h
    exact sysInvRegMutation he hc ho hex hk (Or.inl hm) hinv
  | revView caller tokenId viewer h he hw =>
    obtain ⟨hc, ho, _, hex, hk, hm⟩ := WillsNFT.revokeViewer_ok h
    exact sysInvRegMutation he hc ho hex hk (Or.inl hm) hinv
  | regExec caller tokenId h he hw =>
    obtain ⟨hc, ho, _, hex, hk, hm⟩ := WillsNFT.executeWill_ok h
    exact sysInvRegMutation he hc ho hex hk (Or.inr hm) hinv
  | regEmergency caller now tokenId h he hw =>
    obtain ⟨hc, ho, _, hex, hk, hm⟩ := WillsNFT.emergencyExecuteWill_ok h
    exact sysInvRegMutation he hc ho hex hk (Or.inr hm) hinv
  | execByC caller tokenId ex h he hw =>
    obtain ⟨hc, ho, _, hex, hk, hm⟩ := WillsNFT.executeWillByContract_ok h
    exact sysInvRegMutation he hc ho hex hk (Or.inr hm) hinv
  | emergencyByC caller now tokenId ex h he hw =>
    obtain ⟨hc, ho, _, hex, hk, hm⟩ := WillsNFT.emergencyExecuteWillByContract_ok h
    exact sysInvRegMutation he hc ho hex hk (Or.inr hm) hinv
  | authC caller addr h he hw =>
    obtain ⟨hc, ho, hwills⟩ := WillsNFT.authorizeContract_ok h
    obtain ⟨h1, h2⟩ := hinv
    refine ⟨fun j hj => ?_, fun k hkc => ?_⟩
    · rw [he] at hj; rw [hwills]; exact h1 j hj
    · rw [hc] at hkc; rw [ho, hwills]; exact h2 k hkc
  | revC caller addr h he hw =>
    obtain ⟨hc, ho, hwills⟩ := WillsNFT.revokeContract_ok h
    obtain ⟨h1, h2⟩ := hinv
    refine ⟨fun j hj => ?_, fun k hkc => ?_⟩
    · rw [he] at hj; rw [hwills]; exact h1 j hj
    · rw [hc] at hkc; rw [ho, hwills]; exact h2 k hkc
  | transfer caller fromAddr toAddr tokenId h he hw =>
    obtain ⟨hc, hwills, _, _, hex, _, _, _, hok⟩ := WillsNFT.transferFrom_ok h
    obtain ⟨h1, h2⟩ := hinv
    refine ⟨fun j hj => ?_, fun k hkc => ?_⟩
    · rw [he] at hj; rw [hwills]; exact h1 j hj
    · rw [hc] at hkc
      have hfr := h2 k hkc
      have hki : k ≠ tokenId := fun hk0 => hex (hk0 ▸ hfr.1)
      rw [hok k hki, hwills]
      exact hfr
  | engExec caller now tokenId instr h =>
    obtain ⟨hseal, hst, hstex, _, _⟩ := WillExecutor.engineExecRun_ok h
    obtain ⟨hc, ho, _, hex, hk, hm⟩ := WillsNFT.executeWillByContract_ok hseal
    obtain ⟨h1, h2⟩ := hinv
    refine ⟨fun j hj => ?_, fun k hkc => ?_⟩
    · by_cases hji : j = tokenId
      · subst hji; exact hm
      · rw [hst j hji] at hj
        rw [hk j hji]
        exact h1 j hj
    · rw [hc] at hkc
      have hfr := h2 k hkc
      have hki : k ≠ tokenId := fun hk0 => hex (hk0 ▸ hfr.1)
      rw [ho, hk k hki]
      exact hfr
  | engEmergency caller now tokenId instr h =>
    obtain ⟨hseal, hst, hstex, _, _⟩ := WillExecutor.engineEmergencyRun_ok h
    obtain ⟨hc, ho, _, hex, hk, hm⟩ := WillsNFT.emergencyExecuteWillByContract_ok hseal
    obtain ⟨h1, h2⟩ := hinv
    refine ⟨fun j hj => ?_, fun k hkc => ?_⟩
    · by_cases hji : j = tokenId
      · subst hji; exact hm
      · rw [hst j hji] at hj
        rw [hk j hji]
        exact h1 j hj
    · rw [hc] at hkc
      have hfr := h2 k hkc
      have hki : k ≠ tokenId := fun hk0 => hex (hk0 ▸ hfr.1)
      rw [ho, hk k hki]
      exact hfr
  | setFeePct caller pct h =>
    obtain ⟨hn, hst, _⟩ := WillExecutor.setExecutionFeePercentage_ok h
    obtain ⟨h1, h2⟩ := hinv
    refine ⟨fun j hj => ?_, fun k hkc => ?_⟩
    · rw [hst] at hj; rw [hn]; exact h1 j hj
    · rw [hn] at hkc ⊢; exact h2 k hkc
  | setFeeRec caller addr h =>
    obtain ⟨hn, hst, _⟩ := WillExecutor.setFeeRecipient_ok h
    obtain ⟨h1, h2⟩ := hinv
    refine ⟨fun j hj => ?_, fun k hkc => ?_⟩
    · rw [hst] at hj; rw [hn]; exact h1 j hj
    · rw [hn] at hkc ⊢; exact h2 k hkc
  | env hn he =>
    obtain ⟨h1, h2⟩ := hinv
    refine ⟨fun j hj => ?_, fun k hkc => ?_⟩
    · rw [he] at hj; rw [hn]; exact h1 j hj
    · rw [hn] at hkc ⊢; exact h2 k hkc

/-- The system invariant holds in the freshly deployed system. -/
theorem initSysInv (deployer selfAddr feeRecipient : Addr) (w : World) :
    SysInv (initSys deployer selfAddr feeRecipient w) := by
  constructor
  · intro id hid
    simp [initSys, initWillExecutor, defaultStatus] at hid
  · intro k _
    simp [initSys, initWillsNFT]

/-- The system invariant holds in every state reachable from a state that
satisfies it. -/
theorem reachableSysInv {s s' : SysState} (h : Reachable s s') (h0 : SysInv s) :
    SysInv s' := by
  induction h with
  | refl => exact h0
  | tail _ hbc ih => exact stepPreservesSysInv hbc ih

/-- The token-id counter never decreases across a successful call. -/
theorem stepCounterMono {s s' : SysState} (hs : Step s s') :
    s.nft.tokenIdCounter ≤ s'.nft.tokenIdCounter := by
  cases hs with
  | create caller now hash ex delay id h he hw =>
    rw [(WillsNFT.createWill_ok h).2.1]; omega
  | updDoc caller now tokenId hash h he hw =>
    rw [(WillsNFT.updateWill_ok h).1]
  | updExec caller now tokenId ex h he hw =>
    rw [(WillsNFT.updateExecutor_ok h).1]
  | updDelay caller now tokenId delay h he hw =>
    rw [(WillsNFT.updateEmergencyDelay_ok h).1]
  | authView caller tokenId viewer h he hw =>
    rw [(WillsNFT.authorizeViewer_ok h).1]
  | revView caller tokenId viewer h he hw =>
    rw [(WillsNFT.revokeViewer_ok h).1]
  | regExec caller tokenId h he hw =>
    rw [(WillsNFT.executeWill_ok h).1]
  | regEmergency caller now tokenId h he hw =>
    rw [(WillsNFT.emergencyExecuteWill_ok h).1]
  | execByC caller tokenId ex h he hw =>
    rw [(WillsNFT.executeWillByContract_ok h).1]
  | emergencyByC caller now tokenId ex h he hw =>
    rw [(WillsNFT.emergencyExecuteWillByContract_ok h).1]
  | authC caller addr h he hw =>
    rw [(WillsNFT.authorizeContract_ok h).1]
  | revC caller addr h he hw =>
    rw [(WillsNFT.revokeContract_ok h).1]
  | transfer caller fromAddr toAddr tokenId h he hw =>
    rw [(WillsNFT.transferFrom_ok h).1]
  | engExec caller now tokenId instr h =>
    rw [(WillsNFT.executeWillByContract_ok (WillExecutor.engineExecRun_ok h).1).1]
  | engEmergency caller now tokenId instr h =>
    rw [(WillsNFT.emergencyExecuteWillByContract_ok
          (WillExecutor.engineEmergencyRun_ok h).1).1]
  | setFeePct caller pct h =>
    rw [(WillExecutor.setExecutionFeePercentage_ok h).1]
  | setFeeRec caller addr h =>
    rw [(WillExecutor.setFeeRecipient_ok h).1]
  | env hn he =>
    rw [hn]

/-- Pooled fee of a native distribution list, in basis points of the total. -/
def ethFee (e : WillExecutor) (ds : List ETHDistribution) : Nat :=
  ethTotal ds * e.executionFeePercentage / 10000

/-- Per-entry fee of a fungible distribution, in basis points of its amount. -/
def erc20Fee (e : WillExecutor) (d : ERC20Distribution) : Nat :=
  d.amount * e.executionFeePercentage / 10000

/-- ethTotal unfolds over cons. -/
theorem ethTotal_cons (d : ETHDistribution) (ds : List ETHDistribution) :
    ethTotal (d :: ds) = d.amount + ethTotal ds := by
  simp [ethTotal]

/-- ethInflow unfolds over cons. -/
theorem ethInflow_cons (x : Addr) (d : ETHDistribution) (ds : List ETHDistribution) :
    ethInflow x (d :: ds) = (if d.beneficiary = x then d.amount else 0) + ethInflow x ds := by
  by_cases hb : d.beneficiary = x
  · simp [ethInflow, List.filter_cons, hb]
  · simp [ethInflow, List.filter_cons, hb]

/-- A native distribution list whose amounts are all positive and whose
total is zero is empty. -/
theorem ethTotal_zero {ds : List ETHDistribution}
    (ha : ∀ d ∈ ds, 0 < d.amount) (h0 : ethTotal ds = 0) : ds = [] := by
  cases ds with
  | nil => rfl
  | cons d ds =>
    rw [ethTotal_cons] at h0
    have := ha d (List.mem_cons_self d ds)
    omega

/-- Successful native transfer, described pointwise for distinct source and
destination. -/
theorem transferETH_ok (w : World) (src dst : Addr) (amount : Nat)
    (h : ¬ w.ethBal src < amount) (hne : dst ≠ src) :
    ∃ w', transferETH w src dst amount = .ok w' ∧
      w'.ethBal src = w.ethBal src - amount ∧
      w'.ethBal dst = w.ethBal dst + amount ∧
      (∀ a, a ≠ src → a ≠ dst → w'.ethBal a = w.ethBal a) ∧
      w'.trace = w.trace ++ [(dst, amount)] ∧
      w'.erc20Bal = w.erc20Bal ∧ w'.nftOwner = w.nftOwner := by
  unfold transferETH
  rw [if_neg h]
  refine ⟨_, rfl, ?_, ?_, ?_, rfl, rfl, rfl⟩
  · simp [Ne.symm hne]
  · simp [hne]
  · intro a ha hd
    simp [ha, hd]

/-- Full characterisation of a successful ETH payment loop: the engine is
debited by the total, every other account is credited by its inflow, the
transfers are appended to the trace in instruction order, and non-native
assets are untouched. -/
theorem ethLoop_ok (self : Addr) (ds : List ETHDistribution) (w : World)
    (hgood : ∀ d ∈ ds, d.beneficiary ≠ 0 ∧ 0 < d.amount ∧ d.beneficiary ≠ self)
    (hbal : ethTotal ds ≤ w.ethBal self) :
    ∃ w', ethLoop self w ds = .ok w' ∧
      w'.ethBal self = w.ethBal self - ethTotal ds ∧
      (∀ x, x ≠ self → w'.ethBal x = w.ethBal x + ethInflow x ds) ∧
      w'.trace = w.trace ++ ds.map (fun d => (d.beneficiary, d.amount)) ∧
      w'.erc20Bal = w.erc20Bal ∧ w'.nftOwner = w.nftOwner := by
  induction ds generalizing w with
  | nil =>
    refine ⟨w, rfl, by simp [ethTotal], fun x _ => by simp [ethInflow], by simp, rfl, rfl⟩
  | cons d ds ih =>
    obtain ⟨hb, ha, hs⟩ := hgood d (List.mem_cons_self d ds)
    rw [ethTotal_cons] at hbal
    have hnl : ¬ w.ethBal self < d.amount := by omega
    obtain ⟨w1, htr, hsrc1, hdst1, hoth1, htr1, h20a, hnfta⟩ :=
      transferETH_ok w self d.beneficiary d.amount hnl hs
    have hbal1 : ethTotal ds ≤ w1.ethBal self := by
      rw [hsrc1]; omega
    obtain ⟨w', hrun, hself, hoth, htr2, h20, hnft⟩ :=
      ih w1 (fun d' hd' => hgood d' (List.mem_cons_of_mem d hd')) hbal1
    have hloop : ethLoop self w (d :: ds) = ethLoop self w1 ds := by
      simp [ethLoop, hb, Nat.pos_iff_ne_zero.mp ha, htr]
    refine ⟨w', by rw [hloop]; exact hrun, ?_, ?_, ?_,
            by rw [h20, h20a], by rw [hnft, hnfta]⟩
    · rw [hself, hsrc1, ethTotal_cons]
      omega
    · intro x hx
      rw [hoth x hx, ethInflow_cons]
      by_cases hxd : x = d.beneficiary
      · rw [hxd, hdst1, if_pos rfl]
        omega
      · rw [hoth1 x hx hxd, if_neg (fun hc => hxd hc.symm)]
        omega
    · rw [htr2, htr1]
      simp

/-- The trace of any successful ETH payment loop lists exactly the
instruction's payments, in instruction order. -/
theorem ethLoop_trace (self : Addr) (ds : List ETHDistribution) :
    ∀ w w', ethLoop self w ds = .ok w' →
      w'.trace = w.trace ++ ds.map (fun d => (d.beneficiary, d.amount)) := by
  induction ds with
  | nil =>
    intro w w' h
    cases h
    simp
  | cons d ds ih =>
    intro w w' h
    unfold ethLoop at h
    repeat' split at h
    any_goals cases h
    rename_i w1 htr
    have hrest := ih w1 w' h
    unfold transferETH at htr
    split at htr
    · cases htr
    · cases htr
      rw [hrest]
      simp

/-- A payment loop containing a null beneficiary or a zero amount never
succeeds. -/
theorem ethLoop_bad (self : Addr) (ds : List ETHDistribution)
    (hbad : ∃ d ∈ ds, d.beneficiary = 0 ∨ d.amount = 0) :
    ∀ w, isError (ethLoop self w ds) = true := by
  induction ds with
  | nil => simp at hbad
  | cons d ds ih =>
    intro w
    obtain ⟨d', hd', hflaw⟩ := hbad
    unfold ethLoop
    by_cases h1 : d.beneficiary = 0
    · simp [h1, isError]
    · by_cases h2 : d.amount = 0
      · simp [h1, h2, isError]
      · have hd'' : d' ∈ ds := by
          rcases List.mem_cons.mp hd' with hh | hh
          · rw [hh] at hflaw
            rcases hflaw with hf | hf
            · exact absurd hf h1
            · exact absurd hf h2
          · exact hh
        simp only [h1, h2, if_neg, if_false]
        cases htr : transferETH w self d.beneficiary d.amount with
        | error e => simp [isError, h1, h2, htr]
        | ok w1 => simpa [h1, h2, htr] using ih ⟨d', hd'', hflaw⟩ w1

/-- Full characterisation of a successful native distribution pass: the fee
recipient gains exactly floor(total * feeBps / 10000) on top of any amounts
addressed to it, every other non-engine account gains exactly its inflow,
the engine pays total plus fee, and the fee transfer comes last in the
trace, only when positive. -/
theorem distributeETH_ok (e : WillExecutor) (w : World) (ds : List ETHDistribution)
    (hgood : ∀ d ∈ ds, d.beneficiary ≠ 0 ∧ 0 < d.amount ∧ d.beneficiary ≠ e.self)
    (hfr : e.feeRecipient ≠ e.self)
    (hbal : ethTotal ds + ethFee e ds ≤ w.ethBal e.self) :
    ∃ w', distributeETH e w ds = .ok w' ∧
      w'.ethBal e.self = w.ethBal e.self - (ethTotal ds + ethFee e ds) ∧
      (∀ x, x ≠ e.self →
        w'.ethBal x = w.ethBal x + ethInflow x ds +
          (if x = e.feeRecipient then ethFee e ds else 0)) ∧
      w'.trace = w.trace ++ ds.map (fun d => (d.beneficiary, d.amount)) ++
        (if 0 < ethFee e ds then [(e.feeRecipient, ethFee e ds)] else []) ∧
      w'.erc20Bal = w.erc20Bal ∧ w'.nftOwner = w.nftOwner := by
  by_cases htot : ethTotal ds = 0
  · have hds : ds = [] := ethTotal_zero (fun d hd => (hgood d hd).2.1) htot
    subst hds
    refine ⟨w, by simp [distributeETH, ethTotal], ?_, ?_, ?_, rfl, rfl⟩
    · simp [ethTotal, ethFee]
    · intro x _
      simp [ethInflow, ethFee, ethTotal]
    · simp [ethFee, ethTotal]
  · have hbal' : ethTotal ds ≤ w.ethBal e.self := by
      unfold ethFee at hbal; omega
    obtain ⟨w1, hrun, hself1, hoth1, htr1, h20a, hnfta⟩ := ethLoop_ok e.self ds w hgood hbal'
    have hguard : ¬ w.ethBal e.self < ethTotal ds + ethTotal ds * e.executionFeePercentage / 10000 := by
      unfold ethFee at hbal; omega
    have hev : distributeETH e w ds =
        (if 0 < ethFee e ds then transferETH w1 e.self e.feeRecipient (ethFee e ds)
         else .ok w1) := by
      unfold distributeETH
      simp only []
      rw [if_neg htot, if_neg hguard, hrun]
      unfold ethFee
      rfl
    by_cases hfee : 0 < ethFee e ds
    · have hguard2 : ¬ w1.ethBal e.self < ethFee e ds := by
        rw [hself1]
        unfold ethFee at hbal ⊢
        omega
      obtain ⟨w2, htr2ok, hsrc2, hdst2, hoth2, htrtr, h20b, hnftb⟩ :=
        transferETH_ok w1 e.self e.feeRecipient (ethFee e ds) hguard2 hfr
      refine ⟨w2, by rw [hev, if_pos hfee]; exact htr2ok, ?_, ?_, ?_,
              by rw [h20b, h20a], by rw [hnftb, hnfta]⟩
      · rw [hsrc2, hself1]
        unfold ethFee at hbal ⊢
        omega
      · intro x hx
        by_cases hxf : x = e.feeRecipient
        · rw [hxf, hdst2, hoth1 e.feeRecipient hfr, if_pos rfl]
        · rw [hoth2 x hx hxf, hoth1 x hx, if_neg hxf]
          omega
      · rw [htrtr, htr1, if_pos hfee]
    · refine ⟨w1, by rw [hev, if_neg hfee], ?_, ?_, ?_,
              by rw [h20a], by rw [hnfta]⟩
      · rw [hself1]
        have : ethFee e ds = 0 := by omega
        rw [this]
        omega
      · intro x hx
        rw [hoth1 x hx]
        have : ethFee e ds = 0 := by omega
        rw [this]
        simp
      · rw [htr1, if_neg hfee]
        simp

/-- A native pass with a positive total and a null-beneficiary or
zero-amount entry always fails. -/
theorem distributeETH_bad (e : WillExecutor) (w : World) (ds : List ETHDistribution)
    (htot : ethTotal ds ≠ 0) (hbad : ∃ d ∈ ds, d.beneficiary = 0 ∨ d.amount = 0) :
    isError (distributeETH e w ds) = true := by
  unfold distributeETH
  simp only []
  rw [if_neg htot]
  by_cases hg : w.ethBal e.self < ethTotal ds + ethTotal ds * e.executionFeePercentage / 10000
  · rw [if_pos hg]
    rfl
  · rw [if_neg hg]
    have hb := ethLoop_bad e.self ds hbad w
    cases hrun : ethLoop e.self w ds with
    | error err => rfl
    | ok w1 => rw [hrun] at hb; simp [isError] at hb

/-- The trace of any successful native pass with a positive total is the
per-entry payments in instruction order, followed by the fee transfer
exactly when the fee is positive. -/
theorem distributeETH_trace (e : WillExecutor) (w : World) (ds : List ETHDistribution)
    (w' : World) (h : distributeETH e w ds = .ok w') (htot : ethTotal ds ≠ 0) :
    w'.trace = w.trace ++ ds.map (fun d => (d.beneficiary, d.amount)) ++
      (if 0 < ethFee e ds then [(e.feeRecipient, ethFee e ds)] else []) := by
  unfold distributeETH at h
  simp only [] at h
  rw [if_neg htot] at h
  split at h
  · cases h
  · cases hrun : ethLoop e.self w ds with
    | error err =>
      rw [hrun] at h
      cases h
    | ok w1 =>
      rw [hrun] at h
      simp only [] at h
      have hw1 := ethLoop_trace e.self ds w w1 hrun
      by_cases hfee : 0 < ethTotal ds * e.executionFeePercentage / 10000
      · rw [if_pos hfee] at h
        unfold transferETH at h
        split at h
        · cases h
        · cases h
          rw [if_pos (show 0 < ethFee e ds from hfee)]
          simp only []
          rw [hw1]
          unfold ethFee
          simp
      · rw [if_neg hfee] at h
        cases h
        rw [if_neg (show ¬ 0 < ethFee e ds from hfee), hw1]
        simp

/-- Per-entry fungible fee is bounded by the entry amount whenever the rate
respects the contract cap. -/
theorem erc20Fee_le (e : WillExecutor) (d : ERC20Distribution)
    (hpct : e.executionFeePercentage ≤ MAX_FEE_PERCENTAGE) :
    erc20Fee e d ≤ d.amount := by
  unfold erc20Fee MAX_FEE_PERCENTAGE at *
  calc d.amount * e.executionFeePercentage / 10000
      ≤ d.amount * 10000 / 10000 :=
        Nat.div_le_div_right (Nat.mul_le_mul_left _ (by omega))
    _ = d.amount := Nat.mul_div_cancel d.amount (by omega)

/-- Successful fungible transfer, described pointwise for distinct source
and destination. -/
theorem transferERC20_ok (w : World) (token src dst : Addr) (amount : Nat)
    (h : ¬ w.erc20Bal token src < amount) (hne : dst ≠ src) :
    ∃ w', transferERC20 w token src dst amount = some w' ∧
      w'.erc20Bal token src = w.erc20Bal token src - amount ∧
      w'.erc20Bal token dst = w.erc20Bal token dst + amount ∧
      (∀ a, a ≠ src → a ≠ dst → w'.erc20Bal token a = w.erc20Bal token a) ∧
      (∀ t a, t ≠ token → w'.erc20Bal t a = w.erc20Bal t a) ∧
      w'.ethBal = w.ethBal ∧ w'.nftOwner = w.nftOwner ∧ w'.trace = w.trace := by
  unfold transferERC20
  rw [if_neg h]
  refine ⟨_, rfl, ?_, ?_, ?_, ?_, rfl, rfl, rfl⟩
  · simp [Ne.symm hne]
  · simp [hne]
  · intro a ha hd
    simp [ha, hd]
  · intro t a ht
    simp [ht]

/-- Per-entry fee behaviour of the fungible pass, on a single-entry
instruction: the beneficiary receives the amount minus the per-entry fee,
the fee recipient receives exactly that fee, and the engine is debited by
the full amount. -/
theorem distributeERC20_single (e : WillExecutor) (w : World) (d : ERC20Distribution)
    (hb : d.beneficiary ≠ 0) (ht : d.tokenContract ≠ 0) (ha : 0 < d.amount)
    (hbs : d.beneficiary ≠ e.self) (hbf : d.beneficiary ≠ e.feeRecipient)
    (hfs : e.feeRecipient ≠ e.self)
    (hpct : e.executionFeePercentage ≤ MAX_FEE_PERCENTAGE)
    (hbal : d.amount ≤ w.erc20Bal d.tokenContract e.self) :
    ∃ w', distributeERC20 e w [d] = .ok w' ∧
      w'.erc20Bal d.tokenContract d.beneficiary =
        w.erc20Bal d.tokenContract d.beneficiary + (d.amount - erc20Fee e d) ∧
      w'.erc20Bal d.tokenContract e.feeRecipient =
        w.erc20Bal d.tokenContract e.feeRecipient + erc20Fee e d ∧
      w'.erc20Bal d.tokenContract e.self =
        w.erc20Bal d.tokenContract e.self - d.amount ∧
      w'.ethBal = w.ethBal ∧ w'.nftOwner = w.nftOwner ∧ w'.trace = w.trace := by
  have hfle : erc20Fee e d ≤ d.amount := erc20Fee_le e d hpct
  have hg1 : ¬ w.erc20Bal d.tokenContract e.self < d.amount - erc20Fee e d := by omega
  obtain ⟨w1, htr1, hsrc1, hdst1, hoth1, _, heth1, hnft1, htrc1⟩ :=
    transferERC20_ok w d.tokenContract e.self d.beneficiary (d.amount - erc20Fee e d) hg1 hbs
  have hnb : ¬ w.erc20Bal d.tokenContract e.self < d.amount := by omega
  by_cases hfee : 0 < erc20Fee e d
  · have hg2 : ¬ w1.erc20Bal d.tokenContract e.self < erc20Fee e d := by
      rw [hsrc1]; omega
    obtain ⟨w2, htr2, hsrc2, hdst2, hoth2, _, heth2, hnft2, htrc2⟩ :=
      transferERC20_ok w1 d.tokenContract e.self e.feeRecipient (erc20Fee e d) hg2 hfs
    have hev : distributeERC20 e w [d] = .ok w2 := by
      unfold distributeERC20 erc20Loop
      rw [if_neg hb, if_neg ht, if_neg (Nat.pos_iff_ne_zero.mp ha), if_neg hnb]
      simp only []
      rw [show d.amount * e.executionFeePercentage / 10000 = erc20Fee e d from rfl, htr1]
      simp only []
      rw [if_pos hfee, htr2]
      rfl
    refine ⟨w2, hev, ?_, ?_, ?_, by rw [heth2, heth1], by rw [hnft2, hnft1],
            by rw [htrc2, htrc1]⟩
    · rw [hoth2 d.beneficiary hbs hbf, hdst1]
    · rw [hdst2, hoth1 e.feeRecipient hfs (fun hc => hbf hc.symm)]
    · rw [hsrc2, hsrc1]
      omega
  · have hev : distributeERC20 e w [d] = .ok w1 := by
      unfold distributeERC20 erc20Loop
      rw [if_neg hb, if_neg ht, if_neg (Nat.pos_iff_ne_zero.mp ha), if_neg hnb]
      simp only []
      rw [show d.amount * e.executionFeePercentage / 10000 = erc20Fee e d from rfl, htr1]
      simp only []
      rw [if_neg hfee]
      rfl
    have hf0 : erc20Fee e d = 0 := by omega
    refine ⟨w1, hev, ?_, ?_, ?_, by rw [heth1], by rw [hnft1], by rw [htrc1]⟩
    · rw [hdst1]
    · rw [hoth1 e.feeRecipient hfs (fun hc => hbf hc.symm), hf0]
      omega
    · rw [hsrc1, hf0]
      omega

/-- The non-fungible pass never touches native or fungible balances and
emits no native transfers: no fee is charged. -/
theorem erc721Loop_keeps (self : Addr) (ds : List ERC721Distribution) :
    ∀ w w', erc721Loop self w ds = .ok w' →
      w'.ethBal = w.ethBal ∧ w'.erc20Bal = w.erc20Bal ∧ w'.trace = w.trace := by
  induction ds with
  | nil =>
    intro w w' h
    cases h
    exact ⟨rfl, rfl, rfl⟩
  | cons d ds ih =>
    intro w w' h
    unfold erc721Loop at h
    repeat' split at h
    any_goals cases h
    rename_i h1 h2 h3
    have hres := ih _ w' h
    exact ⟨hres.1, hres.2.1, hres.2.2⟩

/-- The fungible pass depends only on the engine's address, fee rate and
fee recipient, not on its statuses. -/
theorem erc20Loop_congr (e e' : WillExecutor)
    (hself : e'.self = e.self)
    (hpct : e'.executionFeePercentage = e.executionFeePercentage)
    (hfr : e'.feeRecipient = e.feeRecipient) :
    ∀ (ds : List ERC20Distribution) (w : World), erc20Loop e' w ds = erc20Loop e w ds := by
  intro ds
  induction ds with
  | nil => intro w; rfl
  | cons d rest ih =>
    intro w
    unfold erc20Loop
    rw [hself, hpct, hfr]
    simp only []
    repeat' split
    any_goals rfl
    all_goals exact ih _

/-- Distribution passes ignore the engine's statuses entirely. -/
theorem executeDistributions_congr (e e' : WillExecutor) (w : World)
    (instr : ExecutionInstruction)
    (hself : e'.self = e.self)
    (hpct : e'.executionFeePercentage = e.executionFeePercentage)
    (hfr : e'.feeRecipient = e.feeRecipient) :
    executeDistributions e' w instr = executeDistributions e w instr := by
  unfold executeDistributions distributeETH distributeERC20 distributeERC721
  rw [hself, hpct, hfr]
  simp only [erc20Loop_congr e e' hself hpct hfr]

/-- Replacing only the statuses field leaves every distribution pass
unchanged. -/
theorem executeDistributions_setStatuses (e : WillExecutor) (f : Nat → ExecutionStatus)
    (w : World) (instr : ExecutionInstruction) :
    executeDistributions
      { statuses := f, instructionHashes := e.instructionHashes,
        executionFeePercentage := e.executionFeePercentage,
        feeRecipient := e.feeRecipient, execOwner := e.execOwner,
        self := e.self } w instr = executeDistributions e w instr :=
  executeDistributions_congr e _ w instr rfl rfl rfl

/-- A positive emergency predicate implies existence, non-execution and an
elapsed delay. -/
theorem WillsNFT.canEmergencyExecute_elim {s : WillsNFT} {now tokenId : Nat}
    (h : s.canEmergencyExecute now tokenId = true) :
    s.willExists tokenId = true ∧ (s.wills tokenId).isExecuted = false ∧
    (s.wills tokenId).lastUpdateAt + (s.wills tokenId).emergencyDelay ≤ now := by
  unfold WillsNFT.canEmergencyExecute at h
  split at h
  · cases h
  · rename_i hc
    rw [not_or] at hc
    refine ⟨by simpa using hc.1, by simpa using hc.2, by simpa using h⟩

/-- If a distribution pass fails, executeWill fails with the prefixed
reason; the registry is never sealed. -/
theorem WillExecutor.executeWill_distFail {s : SysState} {caller now tokenId : Nat}
    {instr : ExecutionInstruction} {reason : String}
    (hex : s.nft.willExists tokenId = true)
    (hexecr : (s.nft.wills tokenId).executor = caller)
    (hnexec : (s.nft.wills tokenId).isExecuted = false)
    (hstE : (s.engine.statuses tokenId).isExecuted = false)
    (hstI : (s.engine.statuses tokenId).isInitiated = false)
    (hdist : executeDistributions s.engine s.world instr = .error reason) :
    WillExecutor.executeWill s caller now tokenId instr =
      .error ("Execution failed: " ++ reason) := by
  unfold WillExecutor.executeWill
  rw [if_neg (not_not_intro hex), if_neg (not_not_intro hexecr),
      if_neg (by simp [hnexec]), if_neg (by simp [hstE]), if_neg (by simp [hstI])]
  simp only []
  rw [executeDistributions_setStatuses s.engine _ s.world instr, hdist]

/-- If a distribution pass fails, emergencyExecuteWill fails with the
prefixed reason. -/
theorem WillExecutor.emergencyExecuteWill_distFail {s : SysState}
    {caller now tokenId : Nat} {instr : ExecutionInstruction} {reason : String}
    (hex : s.nft.willExists tokenId = true)
    (hem : s.nft.canEmergencyExecute now tokenId = true)
    (hstE : (s.engine.statuses tokenId).isExecuted = false)
    (hstI : (s.engine.statuses tokenId).isInitiated = false)
    (hdist : executeDistributions s.engine s.world instr = .error reason) :
    WillExecutor.emergencyExecuteWill s caller now tokenId instr =
      .error ("Emergency execution failed: " ++ reason) := by
  unfold WillExecutor.emergencyExecuteWill
  rw [if_neg (not_not_intro hex), if_neg (not_not_intro hem),
      if_neg (by simp [hstE]), if_neg (by simp [hstI])]
  simp only []
  rw [executeDistributions_setStatuses s.engine _ s.world instr, hdist]

/-- Empty asset world. -/
def w0 : World :=
  { ethBal := fun _ => 0, erc20Bal := fun _ _ => 0, nftOwner := fun _ _ => 0,
    trace := [] }

/-- Freshly deployed system: deployer 1, engine address 7, fee recipient 9. -/
def sys0 : SysState := initSys 1 7 9 w0

/-- Instruction with no distributions. -/
def emptyInstr : ExecutionInstruction :=
  { ethDistributions := [], erc20Distributions := [], erc721Distributions := [],
    instructionHash := 0 }

/-- System after the deployer allow-lists the engine on the registry. -/
def sysA : SysState :=
  match WillsNFT.authorizeContract sys0.nft 1 7 with
  | .ok n => { sys0 with nft := n }
  | .error _ => sys0

/-- System after account 2 creates will 0 with executor 3 at time 100. -/
def sysB : SysState :=
  match WillsNFT.createWill sysA.nft 2 100 "QmWill" 3 MIN_EMERGENCY_DELAY with
  | .ok (n, _) => { sysA with nft := n }
  | .error _ => sysA

/-- System after the executor drives will 0 through the engine with an empty
instruction at time 200. -/
def sysC : SysState :=
  match WillExecutor.executeWill sysB 3 200 0 emptyInstr with
  | .ok s => s
  | .error _ => sysB

/-- Instruction asking for one 1000-wei native payout to account 4. -/
def instr1 : ExecutionInstruction :=
  { ethDistributions := [{ beneficiary := 4, amount := 1000 }],
    erc20Distributions := [], erc721Distributions := [], instructionHash := 0 }

/-- Registry state after the executor seals will 0 directly (no engine). -/
def nftExec : WillsNFT :=
  match WillsNFT.executeWill sysB.nft 3 0 with
  | .ok n => n
  | .error _ => sysB.nft

/-- C1: if a distribution pass fails during executeWill or
emergencyExecuteWill on the engine, the whole attempt fails: the call
reverts with the recorded reason, so the registry is never sealed
(WillRecord.executed stays false), ExecutionStatus.initiated is false
afterwards, no asset movement persists (the world is the pre-call world),
and canExecuteWill(id) is true again. -/
theorem distFailureRollsBackAttempt (s : SysState) (caller now tokenId : Nat)
    (instr : ExecutionInstruction) (reason : String)
    (hex : s.nft.willExists tokenId = true)
    (hnexec : (s.nft.wills tokenId).isExecuted = false)
    (hstE : (s.engine.statuses tokenId).isExecuted = false)
    (hstI : (s.engine.statuses tokenId).isInitiated = false)
    (hdist : executeDistributions s.engine s.world instr = .error reason) :
    WillExecutor.canExecuteWill s tokenId = true ∧
    ((s.nft.wills tokenId).executor = caller →
      executeWillTx s caller now tokenId instr =
        (s, some ("Execution failed: " ++ reason)) ∧
      ((executeWillTx s caller now tokenId instr).1.nft.wills tokenId).isExecuted = false ∧
      ((executeWillTx s caller now tokenId instr).1.engine.statuses tokenId).isInitiated = false ∧
      (executeWillTx s caller now tokenId instr).1.world = s.world ∧
      WillExecutor.canExecuteWill (executeWillTx s caller now tokenId instr).1 tokenId = true) ∧
    (s.nft.canEmergencyExecute now tokenId = true →
      emergencyExecuteWillTx s caller now tokenId instr =
        (s, some ("Emergency execution failed: " ++ reason)) ∧
      ((emergencyExecuteWillTx s caller now tokenId instr).1.nft.wills tokenId).isExecuted = false ∧
      ((emergencyExecuteWillTx s caller now tokenId instr).1.engine.statuses tokenId).isInitiated = false ∧
      (emergencyExecuteWillTx s caller now tokenId instr).1.world = s.world ∧
      WillExecutor.canExecuteWill (emergencyExecuteWillTx s caller now tokenId instr).1 tokenId = true) := by
  have hcan : WillExecutor.canExecuteWill s tokenId = true := by
    unfold WillExecutor.canExecuteWill
    rw [if_neg (not_not_intro hex)]
    simp [hnexec, hstE, hstI]
  refine ⟨hcan, fun hexecr => ?_, fun hem => ?_⟩
  · have hfail := @WillExecutor.executeWill_distFail s caller now tokenId instr reason hex hexecr hnexec hstE hstI hdist
    have htx : executeWillTx s caller now tokenId instr =
        (s, some ("Execution failed: " ++ reason)) := by
      unfold executeWillTx
      rw [hfail]
    rw [htx]
    exact ⟨rfl, hnexec, hstI, rfl, hcan⟩
  · have hfail := @WillExecutor.emergencyExecuteWill_distFail s caller now tokenId instr reason hex hem hstE hstI hdist
    have htx : emergencyExecuteWillTx s caller now tokenId instr =
        (s, some ("Emergency execution failed: " ++ reason)) := by
      unfold emergencyExecuteWillTx
      rw [hfail]
    rw [htx]
    exact ⟨rfl, hnexec, hstI, rfl, hcan⟩

/-- Witness for C1: on the concrete will 0 with engine balance 0 and a
1000-wei payout requested, both execution paths fail with the insufficient
balance reason and the state is fully rolled back. -/
theorem distFailureRollsBackAttempt_witness :
    WillExecutor.canExecuteWill sysB 0 = true ∧
    executeWillTx sysB 3 2592100 0 instr1 =
      (sysB, some "Execution failed: Insufficient ETH balance") ∧
    emergencyExecuteWillTx sysB 3 2592100 0 instr1 =
      (sysB, some "Emergency execution failed: Insufficient ETH balance") ∧
    WillExecutor.canExecuteWill (executeWillTx sysB 3 2592100 0 instr1).1 0 = true := by
  have h := distFailureRollsBackAttempt sysB 3 2592100 0 instr1 "Insufficient ETH balance"
    (by decide) (by decide) (by decide) (by decide) rfl
  exact ⟨h.1, (h.2.1 (by decide)).1, (h.2.2 (by decide)).1, (h.2.1 (by decide)).2.2.2.2⟩

/-- C9 (code bug): the catch block writes failureReason and then reverts,
so the write never persists.  After a failed attempt surfaced to the
caller, getExecutionStatus still returns the default status with an empty
failureReason (initiated is false only because it already was). -/
theorem failureReasonNotPersisted :
    (executeWillTx sysB 3 200 0 instr1).2 =
      some "Execution failed: Insufficient ETH balance" ∧
    WillExecutor.getExecutionStatus (executeWillTx sysB 3 200 0 instr1).1 0 =
      defaultStatus ∧
    ((executeWillTx sysB 3 200 0 instr1).1.engine.statuses 0).failureReason = "" ∧
    ((executeWillTx sysB 3 200 0 instr1).1.engine.statuses 0).isInitiated = false :=
  ⟨rfl, rfl, rfl, rfl⟩

/-- Registry state after will 0 is created on a fresh system without the
engine allow-listed (for the direct-execution counterexample). -/
def sysR : SysState :=
  match WillsNFT.createWill sys0.nft 2 100 "QmWill" 3 MIN_EMERGENCY_DELAY with
  | .ok (n, _) => { sys0 with nft := n }
  | .error _ => sys0

/-- System after the executor seals will 0 directly on the registry,
bypassing the engine. -/
def sysRBad : SysState :=
  match WillsNFT.executeWill sysR.nft 3 0 with
  | .ok n => { sysR with nft := n }
  | .error _ => sysR

/-- C3 counterexample: a reachable state in which the registry record is
executed while the engine status is not — a direct registry executeWill
breaks the claimed iff. -/
theorem statusRecordIffFails_cex :
    Reachable sys0 sysRBad ∧
    (sysRBad.nft.wills 0).isExecuted = true ∧
    (sysRBad.engine.statuses 0).isExecuted = false := by
  refine ⟨?_, by decide, by decide⟩
  have h1 : Step sys0 sysR :=
    Step.create sys0 sysR 2 100 "QmWill" 3 MIN_EMERGENCY_DELAY 0 rfl rfl rfl
  have h2 : Step sysR sysRBad := Step.regExec sysR sysRBad 3 0 rfl rfl rfl
  exact Relation.ReflTransGen.head h1 (Relation.ReflTransGen.single h2)

/-- C3 amended: in every reachable state the engine's executed flag implies
the registry's (the two are updated together whenever execution goes
through the engine); the converse fails because the registry's executeWill
and emergencyExecuteWill can seal a record directly. -/
theorem statusExecutedImpliesRecordExecuted (deployer selfAddr feeRecipient : Addr)
    (wInit : World) (s : SysState) (id : Nat)
    (hreach : Reachable (initSys deployer selfAddr feeRecipient wInit) s)
    (hst : (s.engine.statuses id).isExecuted = true) :
    (s.nft.wills id).isExecuted = true :=
  (reachableSysInv hreach (initSysInv deployer selfAddr feeRecipient wInit)).1 id hst

/-- Witness for the amended C3 at the concrete engine-driven execution of
will 0. -/
theorem statusExecutedImpliesRecordExecuted_witness :
    (sysC.nft.wills 0).isExecuted = true := by
  have h1 : Step sys0 sysA := Step.authC sys0 sysA 1 7 rfl rfl rfl
  have h2 : Step sysA sysB :=
    Step.create sysA sysB 2 100 "QmWill" 3 MIN_EMERGENCY_DELAY 0 rfl rfl rfl
  have h3 : Step sysB sysC := Step.engExec sysB sysC 3 200 0 emptyInstr rfl
  exact statusExecutedImpliesRecordExecuted 1 7 9 w0 sysC 0
    (Relation.ReflTransGen.head h1
      (Relation.ReflTransGen.head h2 (Relation.ReflTransGen.single h3)))
    (by decide)

/-- C2 counterexample: on an executed record, a non-owner caller's
updateWill fails with the ownership error, not with AlreadyExecuted — the
role check precedes the terminal-state check. -/
theorem terminalStateErrorPrecedence_cex :
    (nftExec.wills 0).isExecuted = true ∧
    WillsNFT.updateWill nftExec 5 300 0 "QmNew" = .error "Only owner can update will" ∧
    "Only owner can update will" ≠ "Cannot update executed will" := by
  refine ⟨by decide, rfl, by decide⟩

/-- C2 amended: once a record is executed, updateDocument, updateExecutor,
updateEmergencyDelay, execute and emergencyExecute all fail for every
caller and every argument (so the execution-affecting content is frozen),
and whenever the caller passes the role check the failure is precisely the
AlreadyExecuted error. -/
theorem terminalStateImmutable (n : WillsNFT) (id caller now : Nat) (hash : String)
    (ex : Addr) (delay : Nat)
    (hexec : (n.wills id).isExecuted = true) :
    isError (WillsNFT.updateWill n caller now id hash) = true ∧
    isError (WillsNFT.updateExecutor n caller now id ex) = true ∧
    isError (WillsNFT.updateEmergencyDelay n caller now id delay) = true ∧
    isError (WillsNFT.executeWill n caller id) = true ∧
    isError (WillsNFT.emergencyExecuteWill n caller now id) = true ∧
    (n.owners id = caller → caller ≠ 0 →
      WillsNFT.updateWill n caller now id hash = .error "Cannot update executed will" ∧
      WillsNFT.updateExecutor n caller now id ex = .error "Cannot update executed will" ∧
      WillsNFT.updateEmergencyDelay n caller now id delay =
        .error "Cannot update executed will") ∧
    ((n.wills id).executor = caller → n.owners id ≠ 0 →
      WillsNFT.executeWill n caller id = .error "Will already executed") ∧
    (n.owners id ≠ 0 →
      WillsNFT.emergencyExecuteWill n caller now id = .error "Will already executed") := by
  refine ⟨?_, ?_, ?_, ?_, ?_, ?_, ?_, ?_⟩
  · unfold WillsNFT.updateWill
    repeat' split
    any_goals rfl
  · unfold WillsNFT.updateExecutor
    repeat' split
    any_goals rfl
  · unfold WillsNFT.updateEmergencyDelay
    repeat' split
    any_goals rfl
  · unfold WillsNFT.executeWill
    repeat' split
    any_goals rfl
  · unfold WillsNFT.emergencyExecuteWill
    repeat' split
    any_goals rfl
  · intro hown hc0
    have hwe : ¬¬ n.willExists id = true := by
      simp [WillsNFT.willExists, hown]
      exact hc0
    refine ⟨?_, ?_, ?_⟩
    · unfold WillsNFT.updateWill
      rw [if_neg hwe, if_neg (not_not_intro hown), if_pos hexec]
    · unfold WillsNFT.updateExecutor
      rw [if_neg hwe, if_neg (not_not_intro hown), if_pos hexec]
    · unfold WillsNFT.updateEmergencyDelay
      rw [if_neg hwe, if_neg (not_not_intro hown), if_pos hexec]
  · intro hexr hown
    have hwe : ¬¬ n.willExists id = true := by
      simp [WillsNFT.willExists]
      exact hown
    unfold WillsNFT.executeWill
    rw [if_neg hwe, if_neg (not_not_intro hexr), if_pos hexec]
  · intro hown
    have hwe : ¬¬ n.willExists id = true := by
      simp [WillsNFT.willExists]
      exact hown
    unfold WillsNFT.emergencyExecuteWill
    rw [if_neg hwe, if_pos hexec]

/-- Witness for the amended C2 on the concrete executed will 0 (owner 2,
executor 3): every execution-affecting operation fails, with the
AlreadyExecuted error for role-passing callers. -/
theorem terminalStateImmutable_witness :
    isError (WillsNFT.updateWill nftExec 5 300 0 "QmNew") = true ∧
    WillsNFT.updateWill nftExec 2 300 0 "QmNew" = .error "Cannot update executed will" ∧
    WillsNFT.updateExecutor nftExec 2 300 0 4 = .error "Cannot update executed will" ∧
    WillsNFT.updateEmergencyDelay nftExec 2 300 0 MIN_EMERGENCY_DELAY =
      .error "Cannot update executed will" ∧
    WillsNFT.executeWill nftExec 3 0 = .error "Will already executed" ∧
    WillsNFT.emergencyExecuteWill nftExec 8 999999999 0 = .error "Will already executed" := by
  have hA := terminalStateImmutable nftExec 0 5 300 "QmNew" 4 MIN_EMERGENCY_DELAY (by decide)
  have hB := terminalStateImmutable nftExec 0 2 300 "QmNew" 4 MIN_EMERGENCY_DELAY (by decide)
  have hC := terminalStateImmutable nftExec 0 3 300 "QmNew" 4 MIN_EMERGENCY_DELAY (by decide)
  have hD := terminalStateImmutable nftExec 0 8 999999999 "QmNew" 4 MIN_EMERGENCY_DELAY (by decide)
  obtain ⟨u1, u2, u3⟩ := hB.2.2.2.2.2.1 (by decide) (by decide)
  exact ⟨hA.1, u1, u2, u3, hC.2.2.2.2.2.2.1 (by decide) (by decide),
         hD.2.2.2.2.2.2.2 (by decide)⟩

/-- C5: canEmergencyExecute is false on unknown or executed records, and
otherwise true exactly at and after lastUpdateAt + emergencyDelay; being a
plain function of the state, it mutates nothing. -/
theorem canEmergencyExecuteSpec (n : WillsNFT) (now id : Nat) :
    (n.willExists id = false → n.canEmergencyExecute now id = false) ∧
    ((n.wills id).isExecuted = true → n.canEmergencyExecute now id = false) ∧
    (n.willExists id = true → (n.wills id).isExecuted = false →
      (n.canEmergencyExecute now id = true ↔
        (n.wills id).lastUpdateAt + (n.wills id).emergencyDelay ≤ now)) := by
  refine ⟨?_, ?_, ?_⟩
  · intro h
    unfold WillsNFT.canEmergencyExecute
    rw [if_pos (Or.inl (by simp [h]))]
  · intro h
    unfold WillsNFT.canEmergencyExecute
    rw [if_pos (Or.inr h)]
  · intro h1 h2
    unfold WillsNFT.canEmergencyExecute
    rw [if_neg (not_or.mpr ⟨not_not_intro h1, by simp [h2]⟩)]
    exact decide_eq_true_iff

/-- Witness for C5: unknown id 5 gives false; the executed will gives
false; for the live will 0 (lastUpdateAt 100, delay 30 days) the predicate
is false one second before the threshold and true at it. -/
theorem canEmergencyExecuteSpec_witness :
    WillsNFT.canEmergencyExecute sys0.nft 500 5 = false ∧
    WillsNFT.canEmergencyExecute nftExec 999999999 0 = false ∧
    WillsNFT.canEmergencyExecute sysB.nft (99 + MIN_EMERGENCY_DELAY) 0 = false ∧
    WillsNFT.canEmergencyExecute sysB.nft (100 + MIN_EMERGENCY_DELAY) 0 = true := by
  refine ⟨(canEmergencyExecuteSpec sys0.nft 500 5).1 (by decide),
          (canEmergencyExecuteSpec nftExec 999999999 0).2.1 (by decide), ?_, ?_⟩
  · have h := (canEmergencyExecuteSpec sysB.nft (99 + MIN_EMERGENCY_DELAY) 0).2.2
      (by decide) (by decide)
    cases hb : WillsNFT.canEmergencyExecute sysB.nft (99 + MIN_EMERGENCY_DELAY) 0 with
    | false => rfl
    | true => exact absurd (h.mp hb) (by decide)
  · exact ((canEmergencyExecuteSpec sysB.nft (100 + MIN_EMERGENCY_DELAY) 0).2.2
      (by decide) (by decide)).mpr (by decide)

/-- Registry state after a second will is created on top of sysB. -/
def nftSecond : WillsNFT :=
  match WillsNFT.createWill sysB.nft 2 300 "QmB" 4 MIN_EMERGENCY_DELAY with
  | .ok (n, _) => n
  | .error _ => sysB.nft

/-- C6: ids start at 0 and are assigned strictly increasing by one per
successful creation; every id at or above the counter has never been
assigned (so ids are never reused), the counter never decreases across any
successful call, and a create failing validation allocates no id. -/
theorem idAllocationMonotone (deployer selfAddr feeRecipient : Addr) (wInit : World)
    (s s' : SysState) (n' : WillsNFT) (caller now : Nat) (hash : String) (ex : Addr)
    (delay id : Nat) (badHash : String) (badEx : Addr) (badDelay : Nat) :
    (initSys deployer selfAddr feeRecipient wInit).nft.tokenIdCounter = 0 ∧
    (Reachable (initSys deployer selfAddr feeRecipient wInit) s →
      ∀ k, s.nft.tokenIdCounter ≤ k → s.nft.owners k = 0) ∧
    (Step s s' → s.nft.tokenIdCounter ≤ s'.nft.tokenIdCounter) ∧
    (WillsNFT.createWill s.nft caller now hash ex delay = .ok (n', id) →
      id = s.nft.tokenIdCounter ∧ n'.tokenIdCounter = s.nft.tokenIdCounter + 1 ∧
      s.nft.owners id = 0 ∧ n'.owners id = caller) ∧
    (badHash.length = 0 ∨ badEx = 0 ∨ badEx = caller ∨
      badDelay < MIN_EMERGENCY_DELAY ∨ MAX_EMERGENCY_DELAY < badDelay →
      isError (WillsNFT.createWill s.nft caller now badHash badEx badDelay) = true) := by
  refine ⟨rfl, ?_, fun hst => stepCounterMono hst, ?_, ?_⟩
  · intro hre k hk
    exact ((reachableSysInv hre (initSysInv deployer selfAddr feeRecipient wInit)).2 k hk).1
  · intro h
    obtain ⟨hid, hc, _, _, _, _, _, _, hfree, hok, _, _, _, _⟩ := WillsNFT.createWill_ok h
    exact ⟨hid, hc, hfree, hok⟩
  · intro hbad
    unfold WillsNFT.createWill
    simp only []
    repeat' split
    any_goals rfl
    rename_i h1 h2 h3 h4 h5 h6
    rw [not_not] at h4
    exfalso
    rcases hbad with hb | hb | hb | hb | hb
    · exact h1 hb
    · exact h2 hb
    · exact h3 hb
    · omega
    · omega

/-- Witness for C6 on the concrete chain: fresh counter 0, id 1 is free in
sysB and allocated to the second create, the counter is monotone across the
engine execution of will 0, and an empty pointer is rejected. -/
theorem idAllocationMonotone_witness :
    (initSys 1 7 9 w0).nft.tokenIdCounter = 0 ∧
    sysB.nft.owners 5 = 0 ∧
    sysB.nft.tokenIdCounter ≤ sysC.nft.tokenIdCounter ∧
    (1 = sysB.nft.tokenIdCounter ∧ nftSecond.tokenIdCounter = sysB.nft.tokenIdCounter + 1 ∧
      sysB.nft.owners 1 = 0 ∧ nftSecond.owners 1 = 2) ∧
    isError (WillsNFT.createWill sysB.nft 2 300 "" 4 MIN_EMERGENCY_DELAY) = true := by
  have h := idAllocationMonotone 1 7 9 w0 sysB sysC nftSecond 2 300 "QmB" 4
    MIN_EMERGENCY_DELAY 1 "" 4 MIN_EMERGENCY_DELAY
  have h1 : Step sys0 sysA := Step.authC sys0 sysA 1 7 rfl rfl rfl
  have h2 : Step sysA sysB :=
    Step.create sysA sysB 2 100 "QmWill" 3 MIN_EMERGENCY_DELAY 0 rfl rfl rfl
  have h3 : Step sysB sysC := Step.engExec sysB sysC 3 200 0 emptyInstr rfl
  have hre : Reachable sys0 sysB :=
    Relation.ReflTransGen.head h1 (Relation.ReflTransGen.single h2)
  exact ⟨h.1, h.2.1 hre 5 (by decide), h.2.2.1 h3, h.2.2.2.1 rfl,
         h.2.2.2.2 (Or.inl (by decide))⟩

/-- More inversion facts for a successful updateExecutor: the caller is the
current holder, and the stored executor becomes the given one, which the
guard forces to differ from the caller. -/
theorem WillsNFT.updateExecutor_sets {s s' : WillsNFT} {c now id : Nat} {ex : Addr}
    (h : s.updateExecutor c now id ex = .ok s') :
    s.owners id = c ∧ ex ≠ c ∧ (s'.wills id).executor = ex := by
  unfold WillsNFT.updateExecutor at h
  repeat' split at h
  any_goals cases h
  rename_i h1 h2 h3 h4 h5
  refine ⟨not_not.mp h2, h5, by simp⟩

/-- System after will 0's token is transferred from its creator 2 to its
executor 3. -/
def sysT : SysState :=
  match WillsNFT.transferFrom sysB.nft 2 2 3 0 with
  | .ok n => { sysB with nft := n }
  | .error _ => sysB

/-- System after will 0's token is transferred from creator 2 to account 4. -/
def sysU : SysState :=
  match WillsNFT.transferFrom sysB.nft 2 2 4 0 with
  | .ok n => { sysB with nft := n }
  | .error _ => sysB

/-- System after the new holder 4 re-points will 0's executor at the
original creator 2. -/
def sysV : SysState :=
  match WillsNFT.updateExecutor sysU.nft 4 400 0 2 with
  | .ok n => { sysU with nft := n }
  | .error _ => sysU

/-- C8 counterexample: reachable states in which a record's executor equals
its owner — under either reading of owner.  Transferring the token to the
executor makes holder = executor, and after a transfer the new holder may
set the original creator as executor. -/
theorem executorEqualsOwnerReachable_cex :
    (Reachable sys0 sysT ∧ sysT.nft.owners 0 = (sysT.nft.wills 0).executor) ∧
    (Reachable sys0 sysV ∧ (sysV.nft.wills 0).executor = (sysV.nft.wills 0).creator) := by
  have h1 : Step sys0 sysA := Step.authC sys0 sysA 1 7 rfl rfl rfl
  have h2 : Step sysA sysB :=
    Step.create sysA sysB 2 100 "QmWill" 3 MIN_EMERGENCY_DELAY 0 rfl rfl rfl
  have ht : Step sysB sysT := Step.transfer sysB sysT 2 2 3 0 rfl rfl rfl
  have hu : Step sysB sysU := Step.transfer sysB sysU 2 2 4 0 rfl rfl rfl
  have hv : Step sysU sysV := Step.updExec sysU sysV 4 400 0 2 rfl rfl rfl
  refine ⟨⟨?_, by decide⟩, ⟨?_, by decide⟩⟩
  · exact Relation.ReflTransGen.head h1
      (Relation.ReflTransGen.head h2 (Relation.ReflTransGen.single ht))
  · exact Relation.ReflTransGen.head h1
      (Relation.ReflTransGen.head h2
        (Relation.ReflTransGen.head hu (Relation.ReflTransGen.single hv)))

/-- C8 amended: create and updateExecutor each reject the caller as
executor, so immediately after each such successful mutation the record's
executor differs from the token holder at that moment (and, for create,
from the creator).  The global invariant fails, because a token transfer
can later make the holder equal the executor (see the counterexample). -/
theorem mutationsRejectCallerAsExecutor (s n' : WillsNFT) (caller now : Nat)
    (hash : String) (ex : Addr) (delay id tokenId : Nat) (newEx : Addr) :
    (WillsNFT.createWill s caller now hash ex delay = .ok (n', id) →
      n'.owners id ≠ (n'.wills id).executor ∧
      (n'.wills id).creator ≠ (n'.wills id).executor) ∧
    (WillsNFT.updateExecutor s caller now tokenId newEx = .ok n' →
      n'.owners tokenId ≠ (n'.wills tokenId).executor) := by
  constructor
  · intro h
    obtain ⟨_, _, _, _, hexc, _, _, _, _, hok, _, hwid, _, _⟩ := WillsNFT.createWill_ok h
    rw [hok, hwid]
    exact ⟨fun hc => hexc hc.symm, fun hc => hexc hc.symm⟩
  · intro h
    obtain ⟨hown, hexc, hset⟩ := WillsNFT.updateExecutor_sets h
    obtain ⟨_, ho, _, _, _, _⟩ := WillsNFT.updateExecutor_ok h
    rw [hset, ho, hown]
    exact fun hc => hexc hc.symm

/-- Witness for the amended C8 on the concrete creations: after creating
will 0 (caller 2, executor 3) and after holder 4 re-points the executor to
2, the executor differs from the holder at that moment. -/
theorem mutationsRejectCallerAsExecutor_witness :
    (sysB.nft.owners 0 ≠ (sysB.nft.wills 0).executor ∧
      (sysB.nft.wills 0).creator ≠ (sysB.nft.wills 0).executor) ∧
    sysV.nft.owners 0 ≠ (sysV.nft.wills 0).executor := by
  refine ⟨(mutationsRejectCallerAsExecutor sysA.nft sysB.nft 2 100 "QmWill" 3
            MIN_EMERGENCY_DELAY 0 0 3).1 rfl,
          (mutationsRejectCallerAsExecutor sysU.nft sysV.nft 4 400 "QmWill" 3
            MIN_EMERGENCY_DELAY 0 0 2).2 rfl⟩

/-- C10: a will record is a transferable token, and after a transfer every
owner-gated operation (updateWill, updateExecutor, updateEmergencyDelay,
authorizeViewer, revokeViewer) and the owner clause of the getWillData
access check follow the new holder via ownerOf, while the immutable creator
field keeps the old owner, who loses those rights. -/
theorem ownershipGatesFollowTokenHolder (n n' : WillsNFT)
    (id : Nat) (creatorA newHolder : Addr) (now : Nat) (hash2 : String)
    (newExec : Addr) (newDelay : Nat) (v : Addr)
    (htr : WillsNFT.transferFrom n creatorA creatorA newHolder id = .ok n')
    (hAB : newHolder ≠ creatorA)
    (hcreator : (n.wills id).creator = creatorA)
    (hnexec : (n.wills id).isExecuted = false)
    (hhash : hash2.length ≠ 0)
    (hne0 : newExec ≠ 0) (hneH : newExec ≠ newHolder)
    (hdelay : MIN_EMERGENCY_DELAY ≤ newDelay ∧ newDelay ≤ MAX_EMERGENCY_DELAY)
    (hv : v ≠ 0)
    (hAnotExec : (n.wills id).executor ≠ creatorA)
    (hAnotView : creatorA ∉ (n.wills id).authorizedViewers) :
    n'.owners id = newHolder ∧
    (n'.wills id).creator = creatorA ∧
    WillsNFT.updateWill n' creatorA now id hash2 = .error "Only owner can update will" ∧
    isError (WillsNFT.updateWill n' newHolder now id hash2) = false ∧
    WillsNFT.updateExecutor n' creatorA now id newExec =
      .error "Only owner can update executor" ∧
    isError (WillsNFT.updateExecutor n' newHolder now id newExec) = false ∧
    WillsNFT.updateEmergencyDelay n' creatorA now id newDelay =
      .error "Only owner can update emergency delay" ∧
    isError (WillsNFT.updateEmergencyDelay n' newHolder now id newDelay) = false ∧
    WillsNFT.authorizeViewer n' creatorA id v = .error "Only owner can authorize viewers" ∧
    isError (WillsNFT.authorizeViewer n' newHolder id v) = false ∧
    WillsNFT.revokeViewer n' creatorA id v = .error "Only owner can revoke viewers" ∧
    isError (WillsNFT.revokeViewer n' newHolder id v) = false ∧
    WillsNFT.getWillData n' creatorA id = .error "Not authorized to view this will" ∧
    isError (WillsNFT.getWillData n' newHolder id) = false := by
  obtain ⟨hcnt, hwills, hac, hta0, hexist, hcallr, hfrom, hok, hothk⟩ :=
    WillsNFT.transferFrom_ok htr
  have hwe : ¬¬ n'.willExists id = true := by
    simp [WillsNFT.willExists, hok]
    exact hta0
  have hnotA : n'.owners id ≠ creatorA := by
    rw [hok]; exact hAB
  have hisH : ¬ n'.owners id ≠ newHolder := not_not_intro hok
  have hnex' : ¬ (n'.wills id).isExecuted = true := by
    rw [hwills, hnexec]; simp
  refine ⟨hok, by rw [hwills]; exact hcreator, ?_, ?_, ?_, ?_, ?_, ?_, ?_, ?_, ?_, ?_, ?_, ?_⟩
  · unfold WillsNFT.updateWill
    rw [if_neg hwe, if_pos hnotA]
  · unfold WillsNFT.updateWill
    rw [if_neg hwe, if_neg hisH, if_neg hnex', if_neg hhash]
    rfl
  · unfold WillsNFT.updateExecutor
    rw [if_neg hwe, if_pos hnotA]
  · unfold WillsNFT.updateExecutor
    rw [if_neg hwe, if_neg hisH, if_neg hnex', if_neg hne0, if_neg hneH]
    rfl
  · unfold WillsNFT.updateEmergencyDelay
    rw [if_neg hwe, if_pos hnotA]
  · unfold WillsNFT.updateEmergencyDelay
    rw [if_neg hwe, if_neg hisH, if_neg hnex', if_neg (not_not_intro hdelay)]
    rfl
  · unfold WillsNFT.authorizeViewer
    rw [if_neg hwe, if_pos hnotA]
  · unfold WillsNFT.authorizeViewer
    rw [if_neg hwe, if_neg hisH, if_neg hv]
    rfl
  · unfold WillsNFT.revokeViewer
    rw [if_neg hwe, if_pos hnotA]
  · unfold WillsNFT.revokeViewer
    rw [if_neg hwe, if_neg hisH]
    rfl
  · unfold WillsNFT.getWillData
    rw [if_neg hwe, if_pos ?hdeny]
    case hdeny =>
      rw [not_or, not_or]
      refine ⟨hnotA, ?_, ?_⟩
      · rw [hwills]; exact hAnotExec
      · rw [hwills]; exact hAnotView
  · unfold WillsNFT.getWillData
    rw [if_neg hwe, if_neg (not_not_intro (Or.inl hok))]
    rfl

/-- Registry state after will 0's token moves from creator 2 to executor 3. -/
def nftT10 : WillsNFT :=
  match WillsNFT.transferFrom sysB.nft 2 2 3 0 with
  | .ok n => n
  | .error _ => sysB.nft

/-- Witness for C10: after transferring will 0's token to the executor,
the creator can no longer update or read the will while the new holder
can, and the creator field still names the original creator. -/
theorem ownershipGatesFollowTokenHolder_witness :
    nftT10.owners 0 = 3 ∧
    (nftT10.wills 0).creator = 2 ∧
    WillsNFT.updateWill nftT10 2 500 0 "QmNew2" = .error "Only owner can update will" ∧
    isError (WillsNFT.updateWill nftT10 3 500 0 "QmNew2") = false ∧
    WillsNFT.getWillData nftT10 2 0 = .error "Not authorized to view this will" ∧
    isError (WillsNFT.getWillData nftT10 3 0) = false := by
  have h := ownershipGatesFollowTokenHolder sysB.nft nftT10 0 2 3 500 "QmNew2" 5
    MIN_EMERGENCY_DELAY 6 rfl (by decide) (by decide) (by decide) (by decide)
    (by decide) (by decide) (by decide) (by decide) (by decide) (by decide)
  exact ⟨h.1, h.2.1, h.2.2.1, h.2.2.2.1, h.2.2.2.2.2.2.2.2.2.2.2.2.1,
         h.2.2.2.2.2.2.2.2.2.2.2.2.2⟩

/-- Asset world in which the engine (address 7) holds 100000 wei, 1000
units of token 30, and asset 5 of NFT contract 40. -/
def wRich : World :=
  { ethBal := fun a => if a = 7 then 100000 else 0,
    erc20Bal := fun t a => if t = 30 ∧ a = 7 then 1000 else 0,
    nftOwner := fun t k => if t = 40 ∧ k = 5 then 7 else 0,
    trace := [] }

/-- Two-beneficiary native instruction: 1000 wei to 11 and 500 wei to 12. -/
def ethds2 : List ETHDistribution :=
  [{ beneficiary := 11, amount := 1000 }, { beneficiary := 12, amount := 500 }]

/-- C7 counterexample: an instruction consisting solely of a
null-beneficiary, zero-amount entry is not rejected — the zero-total early
return skips all per-entry validation and the pass succeeds unchanged. -/
theorem zeroTotalSkipsValidation_cex :
    ({ beneficiary := 0, amount := 0 } : ETHDistribution).beneficiary = 0 ∧
    ({ beneficiary := 0, amount := 0 } : ETHDistribution).amount = 0 ∧
    distributeETH sysB.engine w0 [{ beneficiary := 0, amount := 0 }] = .ok w0 :=
  ⟨rfl, rfl, rfl⟩

/-- C7 amended: provided the instruction's total is positive, any
null-beneficiary or zero-amount entry makes the whole native pass fail;
and every successful positive-total pass pays the beneficiaries in
instruction order with the fee to the fee recipient last, only when the fee
is positive (an all-zero instruction is skipped without validation). -/
theorem nativePassValidationAndOrder (e : WillExecutor) (w w' : World)
    (ds : List ETHDistribution) :
    (ethTotal ds ≠ 0 → (∃ d ∈ ds, d.beneficiary = 0 ∨ d.amount = 0) →
      isError (distributeETH e w ds) = true) ∧
    (distributeETH e w ds = .ok w' → ethTotal ds ≠ 0 →
      w'.trace = w.trace ++ ds.map (fun d => (d.beneficiary, d.amount)) ++
        (if 0 < ethFee e ds then [(e.feeRecipient, ethFee e ds)] else [])) :=
  ⟨fun htot hbad => distributeETH_bad e w ds htot hbad,
   fun h htot => distributeETH_trace e w ds w' h htot⟩

/-- World resulting from the successful native run of ethds2. -/
def wEthRun : World :=
  match distributeETH sysB.engine wRich ethds2 with
  | .ok w => w
  | .error _ => wRich

/-- Witness for the amended C7: a 12-wei instruction with a null second
beneficiary fails, and the successful 1500-wei run pays 11 then 12 and the
15-wei fee to recipient 9 last. -/
theorem nativePassValidationAndOrder_witness :
    isError (distributeETH sysB.engine wRich
      [{ beneficiary := 11, amount := 5 }, { beneficiary := 0, amount := 7 }]) = true ∧
    wEthRun.trace = wRich.trace ++ ethds2.map (fun d => (d.beneficiary, d.amount)) ++
      (if 0 < ethFee sysB.engine ethds2 then
        [(sysB.engine.feeRecipient, ethFee sysB.engine ethds2)] else []) := by
  refine ⟨(nativePassValidationAndOrder sysB.engine wRich wRich
            [{ beneficiary := 11, amount := 5 }, { beneficiary := 0, amount := 7 }]).1
            (by decide)
            ⟨{ beneficiary := 0, amount := 7 }, by decide, Or.inl rfl⟩,
          (nativePassValidationAndOrder sysB.engine wRich wEthRun ethds2).2 rfl (by decide)⟩

/-- C4: pooled native fee — the fee recipient receives exactly
floor(T*r/10000) on top of its own inflow, every other non-engine account
receives exactly the amounts addressed to it (fees come from the pool
surplus, not the beneficiaries' shares), and the engine pays total plus
fee; per-entry fungible fee — the beneficiary receives
a - floor(a*r/10000) and the fee recipient floor(a*r/10000); and the
non-fungible pass charges no fee (native and fungible balances are
untouched by any successful run). -/
theorem feeComputationCorrect (e : WillExecutor) (w w' : World) (x t : Addr)
    (ds : List ETHDistribution) (d : ERC20Distribution)
    (nftds : List ERC721Distribution)
    (hgood : ∀ dd ∈ ds, dd.beneficiary ≠ 0 ∧ 0 < dd.amount ∧ dd.beneficiary ≠ e.self)
    (hfr : e.feeRecipient ≠ e.self)
    (hbal : ethTotal ds + ethFee e ds ≤ w.ethBal e.self)
    (hx1 : x ≠ e.self) (hx2 : x ≠ e.feeRecipient)
    (hdb : d.beneficiary ≠ 0) (hdt : d.tokenContract ≠ 0) (hda : 0 < d.amount)
    (hdbs : d.beneficiary ≠ e.self) (hdbf : d.beneficiary ≠ e.feeRecipient)
    (hpct : e.executionFeePercentage ≤ MAX_FEE_PERCENTAGE)
    (hbal20 : d.amount ≤ w.erc20Bal d.tokenContract e.self)
    (hnft : distributeERC721 e w nftds = .ok w') :
    (distributeETH e w ds).map (fun ww => ww.ethBal x) =
      .ok (w.ethBal x + ethInflow x ds) ∧
    (distributeETH e w ds).map (fun ww => ww.ethBal e.feeRecipient) =
      .ok (w.ethBal e.feeRecipient + ethInflow e.feeRecipient ds + ethFee e ds) ∧
    (distributeETH e w ds).map (fun ww => ww.ethBal e.self) =
      .ok (w.ethBal e.self - (ethTotal ds + ethFee e ds)) ∧
    (distributeERC20 e w [d]).map (fun ww => ww.erc20Bal d.tokenContract d.beneficiary) =
      .ok (w.erc20Bal d.tokenContract d.beneficiary + (d.amount - erc20Fee e d)) ∧
    (distributeERC20 e w [d]).map (fun ww => ww.erc20Bal d.tokenContract e.feeRecipient) =
      .ok (w.erc20Bal d.tokenContract e.feeRecipient + erc20Fee e d) ∧
    (distributeERC20 e w [d]).map (fun ww => ww.erc20Bal d.tokenContract e.self) =
      .ok (w.erc20Bal d.tokenContract e.self - d.amount) ∧
    w'.ethBal x = w.ethBal x ∧ w'.erc20Bal t x = w.erc20Bal t x := by
  obtain ⟨w1, hrun, hself1, hoth1, _, _, _⟩ := distributeETH_ok e w ds hgood hfr hbal
  obtain ⟨w2, hrun2, hben2, hfr2, hself2, _, _, _⟩ :=
    distributeERC20_single e w d hdb hdt hda hdbs hdbf hfr hpct hbal20
  unfold distributeERC721 at hnft
  have hkeep := erc721Loop_keeps e.self nftds w w' hnft
  refine ⟨?_, ?_, ?_, ?_, ?_, ?_, by rw [hkeep.1], by rw [hkeep.2.1]⟩
  · rw [hrun]
    simp only [Except.map]
    rw [hoth1 x hx1, if_neg hx2, Nat.add_zero]
  · rw [hrun]
    simp only [Except.map]
    rw [hoth1 e.feeRecipient hfr, if_pos rfl]
  · rw [hrun]
    simp only [Except.map]
    rw [hself1]
  · rw [hrun2]
    simp only [Except.map]
    rw [hben2]
  · rw [hrun2]
    simp only [Except.map]
    rw [hfr2]
  · rw [hrun2]
    simp only [Except.map]
    rw [hself2]

/-- Single fungible entry: 200 units of token 30 to beneficiary 11. -/
def d4 : ERC20Distribution := { beneficiary := 11, tokenContract := 30, amount := 200 }

/-- Single non-fungible entry: asset 5 of contract 40 to beneficiary 12. -/
def nftds4 : List ERC721Distribution :=
  [{ beneficiary := 12, tokenContract := 40, tokenId := 5 }]

/-- World resulting from the successful non-fungible run of nftds4. -/
def wNftRun : World :=
  match distributeERC721 sysB.engine wRich nftds4 with
  | .ok w => w
  | .error _ => wRich

/-- Witness for C4 on the concrete 1% engine: the 1500-wei pooled run, the
200-token entry with fee 2, and the feeless NFT transfer. -/
theorem feeComputationCorrect_witness :
    (distributeETH sysB.engine wRich ethds2).map (fun ww => ww.ethBal 11) =
      .ok (wRich.ethBal 11 + ethInflow 11 ethds2) ∧
    (distributeETH sysB.engine wRich ethds2).map
        (fun ww => ww.ethBal sysB.engine.feeRecipient) =
      .ok (wRich.ethBal sysB.engine.feeRecipient + ethInflow sysB.engine.feeRecipient ethds2 +
           ethFee sysB.engine ethds2) ∧
    (distributeETH sysB.engine wRich ethds2).map (fun ww => ww.ethBal sysB.engine.self) =
      .ok (wRich.ethBal sysB.engine.self - (ethTotal ethds2 + ethFee sysB.engine ethds2)) ∧
    (distributeERC20 sysB.engine wRich [d4]).map
        (fun ww => ww.erc20Bal d4.tokenContract d4.beneficiary) =
      .ok (wRich.erc20Bal d4.tokenContract d4.beneficiary +
           (d4.amount - erc20Fee sysB.engine d4)) ∧
    (distributeERC20 sysB.engine wRich [d4]).map
        (fun ww => ww.erc20Bal d4.tokenContract sysB.engine.feeRecipient) =
      .ok (wRich.erc20Bal d4.tokenContract sysB.engine.feeRecipient +
           erc20Fee sysB.engine d4) ∧
    (distributeERC20 sysB.engine wRich [d4]).map
        (fun ww => ww.erc20Bal d4.tokenContract sysB.engine.self) =
      .ok (wRich.erc20Bal d4.tokenContract sysB.engine.self - d4.amount) ∧
    wNftRun.ethBal 11 = wRich.ethBal 11 ∧ wNftRun.erc20Bal 30 11 = wRich.erc20Bal 30 11 :=
  feeComputationCorrect sysB.engine wRich wNftRun 11 30 ethds2 d4 nftds4
    (by decide) (by decide) (by decide) (by decide) (by decide) (by decide)
    (by decide) (by decide) (by decide) (by decide) (by decide) (by decide) rfl
